import Mathlib

/-!
Shallow embedding of the react-pubsub-component library (src/PSComponent.tsx,
src/PubSubProxy.ts, src/GlobalPubSub.ts) and verification of its specification.

Modelling conventions:
- Message names are strings; trigger argument lists are lists of naturals
  (opaque payload values).
- Callbacks and promise resolvers are identified by natural-number ids; a
  `fire` records delivery as an explicit event list instead of running the
  callback bodies (callbacks are opaque; the spec leaves reentrant behaviour
  undefined, and no claim depends on it).
- A JavaScript `Map` is an insertion-ordered association list with unique
  keys; a `Set` is an insertion-ordered duplicate-free list (`Map.set` on a
  present key and `Set.add` of a present element keep the original position).
- A thrown exception is an `Except.error` carrying the message.  A promise
  rejection produced inside an `async` context (the promise relay in
  `finalize`) does not propagate to the synchronous caller; that is modelled
  by the relay silently registering nothing on a finalized target.
-/

/-- Message names (trigger keys). -/
abbrev Name := String

/-- Trigger payloads: an ordered list of opaque values. -/
abbrev Args := List Nat

/-- Observable deliveries produced by `PSComponent.trigger`: resolving a
pending promise resolver, or invoking a subscribed callback, with the fired
arguments. -/
inductive Event where
  | resolve (w : Nat) (args : Args)
  | invoke (cb : Nat) (args : Args)
deriving DecidableEq, Repr

/- Insertion-ordered JavaScript `Set` semantics on resolver/callback ids. -/
namespace SetList

/-- `Set.add`: append if absent, keep position if present. -/
def add (s : List Nat) (x : Nat) : List Nat :=
  if x ∈ s then s else s ++ [x]

/-- `Set.delete`: remove the element, keeping the order of the others. -/
def del (s : List Nat) (x : Nat) : List Nat :=
  s.filter (fun y => y ≠ x)

end SetList

/- Insertion-ordered JavaScript `Map` semantics with string keys. -/
namespace JsMap

/-- `Map.get`. -/
def lookup (m : List (Name × α)) (k : Name) : Option α :=
  List.lookup k m

/-- `Map.set`: replace in place when the key is present, append otherwise. -/
def set (m : List (Name × α)) (k : Name) (v : α) : List (Name × α) :=
  match m with
  | [] => [(k, v)]
  | e :: rest => if e.1 = k then (k, v) :: rest else e :: set rest k v

/-- `Map.delete`. -/
def erase (m : List (Name × α)) (k : Name) : List (Name × α) :=
  m.filter (fun e => e.1 ≠ k)

end JsMap

/-- The per-component trigger maps: message name to the set of pending
resolver ids (`promises`) or subscribed callback ids (`subscriptions`). -/
abbrev TrigMap := List (Name × List Nat)

namespace TrigMap

/-- The set currently stored for a key (empty when absent), mirroring what
`getTriggerSet` hands back. -/
def getD (m : TrigMap) (k : Name) : List Nat :=
  (JsMap.lookup m k).getD []

/-- `getTriggerSet(map, key)` materialises an empty set in the map when the
key is absent (inserted at the end, like `Map.set`). -/
def ensure (m : TrigMap) (k : Name) : TrigMap :=
  if (JsMap.lookup m k).isSome then m else m ++ [(k, [])]

/-- `getTriggerSet(map, key).add(x)`: add `x` to the key's set (the set is
created at the end of the map when absent). -/
def addTo (m : TrigMap) (k : Name) (x : Nat) : TrigMap :=
  JsMap.set m k (SetList.add (getD m k) x)

/-- All ids appearing in some set of the map. -/
def allIds (m : TrigMap) : List Nat :=
  (m.map Prod.snd).flatten

end TrigMap

/-- The error message thrown by every guarded operation of `PSComponent`. -/
def alreadyFinalized : String := "Already finalized."

/-- The state of a `PSComponent`'s trigger registry (PSComponent.tsx lines
66-72): the two trigger maps and the one-shot `finalized` flag. -/
structure PSComponent where
  promises : TrigMap
  subscriptions : TrigMap
  finalized : Bool
deriving DecidableEq, Repr

/-- Registry well-formedness, maintained by construction in the source: map
keys are unique (JS `Map`) and each stored set is duplicate-free (JS `Set`). -/
def mapWF (m : TrigMap) : Prop :=
  (m.map Prod.fst).Nodup ∧ ∀ e ∈ m, e.2.Nodup

instance (m : TrigMap) : Decidable (mapWF m) := by
  unfold mapWF; infer_instance

namespace PSComponent

/-- `triggerPromise` (PSComponent.tsx lines 250-254): registers a fresh
resolver for the trigger key.  When the component is finalized,
`getTriggerSet` throws inside the promise executor, surfacing as an error. -/
def triggerPromise (c : PSComponent) (key : Name) (w : Nat) : Except String PSComponent :=
  if c.finalized then .error alreadyFinalized
  else .ok { c with promises := TrigMap.addTo c.promises key w }

/-- `triggerSubscribe` (PSComponent.tsx lines 260-262): idempotent add of the
callback to the key's subscription set. -/
def triggerSubscribe (c : PSComponent) (key : Name) (cb : Nat) : Except String PSComponent :=
  if c.finalized then .error alreadyFinalized
  else .ok { c with subscriptions := TrigMap.addTo c.subscriptions key cb }

/-- `triggerUnsubscribe` (PSComponent.tsx lines 268-275): remove the callback;
when the remaining set is empty the key is deleted from the map (this also
erases the empty set `getTriggerSet` just materialised for an absent key). -/
def triggerUnsubscribe (c : PSComponent) (key : Name) (cb : Nat) : Except String PSComponent :=
  if c.finalized then .error alreadyFinalized
  else
    let s := SetList.del (TrigMap.getD c.subscriptions key) cb
    .ok { c with subscriptions :=
      if s = [] then JsMap.erase c.subscriptions key
      else JsMap.set c.subscriptions key s }

/-- `trigger` (PSComponent.tsx lines 190-205): resolve every pending resolver
for the key with the fired args, delete the key's resolver set, then invoke
every subscribed callback with the args in insertion order.  The
`getTriggerSet` call on `subscriptions` leaves a materialised (possibly
empty) set for the key. -/
def trigger (c : PSComponent) (key : Name) (args : Args) : Except String (PSComponent × List Event) :=
  if c.finalized then .error alreadyFinalized
  else
    let ws := TrigMap.getD c.promises key
    let cbs := TrigMap.getD c.subscriptions key
    .ok ({ c with
            promises := JsMap.erase c.promises key,
            subscriptions := TrigMap.ensure c.subscriptions key },
         ws.map (Event.resolve · args) ++ cbs.map (Event.invoke · args))

/-- The flattened (key, id) pairs of a trigger map, in iteration order of the
nested `forEach` loops. -/
def entryPairs (m : TrigMap) : List (Name × Nat) :=
  m.flatMap (fun e => e.2.map (fun x => (e.1, x)))

/-- One promise relay of `finalize`/`finalizeTriggers`:
`resolve(await target.async[key])`.  On a live target this registers the
relay on the target's resolver set for the key (modelled by the original
resolver id, since resolving the relay resolves the original with the same
args).  On a finalized target, `triggerPromise`'s guard throws inside an
async context, so the rejection is swallowed and nothing is registered. -/
def relayOne (t : PSComponent) (key : Name) (w : Nat) : PSComponent :=
  if t.finalized then t
  else { t with promises := TrigMap.addTo t.promises key w }

/-- Relay a list of (key, resolver) pairs onto the target, in order. -/
def relayList (t : PSComponent) (l : List (Name × Nat)) : PSComponent :=
  l.foldl (fun t e => relayOne t e.1 e.2) t

/-- Relay every buffered resolver onto the target, in iteration order. -/
def relayAll (ps : TrigMap) (t : PSComponent) : PSComponent :=
  relayList t (entryPairs ps)

/-- Subscribe a list of (key, callback) pairs on the target, in order; a
throw from the target (finalized) aborts the loop. -/
def subscribeList (t : PSComponent) (l : List (Name × Nat)) : Except String PSComponent :=
  l.foldlM (fun t e => t.triggerSubscribe e.1 e.2) t

/-- Register every buffered callback on the target via its subscribe surface,
in iteration order. -/
def subscribeAll (subs : TrigMap) (t : PSComponent) : Except String PSComponent :=
  subscribeList t (entryPairs subs)

/-- `finalizeTriggers` (PSComponent.tsx lines 208-232): guard on the
`finalized` flag, set it, forward all buffered resolvers (one-hop relay) and
all buffered callbacks onto the target, then clear both maps.  On the error
path (target already finalized with callbacks to forward) the source leaves
this component's flag set with its maps uncleared; `ScopedWorld.psSet` below
reconstructs that partial state where it matters. -/
def finalizeTriggers (c : PSComponent) (t : PSComponent) : Except String (PSComponent × PSComponent) :=
  if c.finalized then .error alreadyFinalized
  else
    (subscribeAll c.subscriptions (relayAll c.promises t)).map
      fun t' => (⟨[], [], true⟩, t')

end PSComponent

/-- The state of a `PubSubProxy` (PubSubProxy.ts lines 33-36): the same two
trigger maps, with no `finalized` flag and no trigger operation. -/
structure PubSubProxy where
  promises : TrigMap
  subscriptions : TrigMap
deriving DecidableEq, Repr

namespace PubSubProxy

/-- Reading `proxy.async.<key>` (PubSubProxy.ts lines 40-46): registers a
fresh resolver for the key; never guarded, never fails. -/
def asyncGet (p : PubSubProxy) (key : Name) (w : Nat) : PubSubProxy :=
  { p with promises := TrigMap.addTo p.promises key w }

/-- `triggerSubscribe` (PubSubProxy.ts lines 101-103). -/
def triggerSubscribe (p : PubSubProxy) (key : Name) (cb : Nat) : PubSubProxy :=
  { p with subscriptions := TrigMap.addTo p.subscriptions key cb }

/-- `triggerUnsubscribe` (PubSubProxy.ts lines 109-116). -/
def triggerUnsubscribe (p : PubSubProxy) (key : Name) (cb : Nat) : PubSubProxy :=
  let s := SetList.del (TrigMap.getD p.subscriptions key) cb
  { p with subscriptions :=
      if s = [] then JsMap.erase p.subscriptions key
      else JsMap.set p.subscriptions key s }

/-- `finalize` (PubSubProxy.ts lines 63-84): forward all buffered resolvers
and callbacks onto the real handle, then clear both maps.  There is no
`finalized` guard.  An error can only come from the target's subscribe
surface (target already finalized); in that case the source leaves both the
proxy and the target unchanged (the relay rejections are swallowed and the
first subscribe call throws before any mutation). -/
def finalize (p : PubSubProxy) (t : PSComponent) : Except String (PubSubProxy × PSComponent) :=
  (PSComponent.subscribeAll p.subscriptions (PSComponent.relayAll p.promises t)).map
    fun t' => (⟨[], []⟩, t')

end PubSubProxy

/-- A slot of the scoped named registry (the `ps` proxy target): either a
lazily created `PubSubProxy`, or the registered handle of a real component,
referred to by its id in the component store. -/
inductive Slot where
  | proxy (p : PubSubProxy)
  | real (cid : Nat)
deriving DecidableEq, Repr

/-- Pointwise update of the component store. -/
def updateComp (f : Nat → PSComponent) (i : Nat) (c : PSComponent) : Nat → PSComponent :=
  fun j => if j = i then c else f j

/-- The scoped named registry of one parent component: the component store,
the id of the parent owning the `ps` proxy, and the slot table.  The handles
written into slots are the registered components' `pubsubObject`s, identified
by component id; the registering component is always distinct from the
parent (a child registers itself into its parent's registry). -/
structure ScopedWorld where
  components : Nat → PSComponent
  parentId : Nat
  ps : List (Name × Slot)

namespace ScopedWorld

/-- The `ps` proxy get trap (PSComponent.tsx lines 125-132): materialise a
fresh `PubSubProxy` when the slot is empty, and return the occupant. -/
def psGet (w : ScopedWorld) (name : Name) : ScopedWorld × Slot :=
  match JsMap.lookup w.ps name with
  | some s => (w, s)
  | none =>
      ({ w with ps := JsMap.set w.ps name (.proxy ⟨[], []⟩) }, .proxy ⟨[], []⟩)

/-- The `ps` proxy set trap (PSComponent.tsx lines 133-149).  Empty slot:
store.  Placeholder slot: `placeholder.finalize(value)` then store (an error
from the placeholder's finalize leaves everything unchanged: the throw
happens before any mutation and aborts the trap before the store).  Real
slot (name reuse): `this.finalizeTriggers(value)` runs the PARENT's own
finalize, then stores; the parent's guard throws before any mutation, while
the later throw (target finalized, callbacks pending) leaves the parent's
`finalized` flag set with its maps uncleared and aborts before the store.
Returns the resulting world and the thrown message, if any. -/
def psSet (w : ScopedWorld) (name : Name) (cid : Nat) : ScopedWorld × Option String :=
  match JsMap.lookup w.ps name with
  | none => ({ w with ps := JsMap.set w.ps name (.real cid) }, none)
  | some (.proxy p) =>
      match p.finalize (w.components cid) with
      | .ok r =>
          ({ w with components := updateComp w.components cid r.2,
                    ps := JsMap.set w.ps name (.real cid) }, none)
      | .error e => (w, some e)
  | some (.real _) =>
      let parent := w.components w.parentId
      if parent.finalized then (w, some alreadyFinalized)
      else
        match parent.finalizeTriggers (w.components cid) with
        | .ok r =>
            ({ w with
                components := updateComp (updateComp w.components w.parentId r.1) cid r.2,
                ps := JsMap.set w.ps name (.real cid) }, none)
        | .error e =>
            ({ w with components :=
                  updateComp w.components w.parentId { parent with finalized := true } },
             some e)

end ScopedWorld

/-- A slot of the global registry.  Real occupants record how they were
registered: `raw = false` for the standard path (the constructor stores the
component's `pubsubObject`, which carries `_finalizeTriggers` but no
`finalizeTriggers` property), `raw = true` when user code assigns the
component instance itself (whose class method `finalizeTriggers` exists at
runtime). -/
inductive GSlot where
  | proxy (p : PubSubProxy)
  | real (cid : Nat) (raw : Bool)
deriving DecidableEq, Repr

/-- The runtime error raised by the global set trap on name reuse over a
standardly registered handle: reading `finalizeTriggers` off the stored
`pubsubObject` yields `undefined`, and calling it is a TypeError. -/
def typeErrorFinalize : String :=
  "TypeError: target[property].finalizeTriggers is not a function"

/-- A global registry created by `GlobalPubSub()`: the component store and
the slot table. -/
structure GlobalWorld where
  components : Nat → PSComponent
  slots : List (Name × GSlot)

namespace GlobalWorld

/-- The global get trap (GlobalPubSub.ts lines 50-57), identical to the
scoped one. -/
def gget (w : GlobalWorld) (name : Name) : GlobalWorld × GSlot :=
  match JsMap.lookup w.slots name with
  | some s => (w, s)
  | none =>
      ({ w with slots := JsMap.set w.slots name (.proxy ⟨[], []⟩) }, .proxy ⟨[], []⟩)

/-- The global set trap (GlobalPubSub.ts lines 58-75).  Empty slot: store.
Placeholder: finalize it onto the new handle, then store.  Real slot (name
reuse): `(target[property] as PSComponent).finalizeTriggers(value)` — the
PREVIOUS occupant's method.  On a standardly registered occupant that
property is undefined and the call is a TypeError, thrown before the store.
On a raw component occupant the call runs its `finalizeTriggers`, with the
same partial-state behaviour as in `ScopedWorld.psSet`. -/
def gset (w : GlobalWorld) (name : Name) (cid : Nat) (raw : Bool) : GlobalWorld × Option String :=
  match JsMap.lookup w.slots name with
  | none => ({ w with slots := JsMap.set w.slots name (.real cid raw) }, none)
  | some (.proxy p) =>
      match p.finalize (w.components cid) with
      | .ok r =>
          ({ w with components := updateComp w.components cid r.2,
                    slots := JsMap.set w.slots name (.real cid raw) }, none)
      | .error e => (w, some e)
  | some (.real oldcid oldraw) =>
      if oldraw then
        let old := w.components oldcid
        if old.finalized then (w, some alreadyFinalized)
        else
          match old.finalizeTriggers (w.components cid) with
          | .ok r =>
              ({ w with
                  components := updateComp (updateComp w.components oldcid r.1) cid r.2,
                  slots := JsMap.set w.slots name (.real cid raw) }, none)
          | .error e =>
              ({ w with components :=
                    updateComp w.components oldcid { old with finalized := true } },
               some e)
      else (w, some typeErrorFinalize)

end GlobalWorld

/-- One entry of the `pubsub` prop tuple received by the `PSComponent`
constructor: the owning scoped registry, a string id, a global registry, or
an absent tuple slot (undefined after destructuring). -/
inductive PropEntry where
  | scoped (w : ScopedWorld)
  | str (s : String)
  | global (w : GlobalWorld)
  | undef

/-- Whether a prop entry is a string (the constructor's typeof checks). -/
def PropEntry.isStr : PropEntry → Bool
  | .str _ => true
  | _ => false

/-- Strict-mode TypeError for a property write on `undefined`. -/
def cannotSetUndef : String := "TypeError: Cannot set properties of undefined"

/-- Strict-mode TypeError for a property write on a string primitive. -/
def cannotSetStr : String := "TypeError: Cannot create property on string"

/-- The constructor's message for a registry followed by a non-string id. -/
def idMustBeString : String := "TypeError: ID must be a string."

/-- The constructor's message for a string name followed by a second string. -/
def idCannotBeString : String := "TypeError: ID cannot be a string."

/-- One registration write `entry[id] = this.pubsubObject` performed by the
constructor: routed through the scoped or global set trap, a strict-mode
TypeError on a string or undefined target.  Returns the entry after the
write and the thrown message, if any. -/
def writeEntry (g : PropEntry) (id : String) (cid : Nat) : PropEntry × Option String :=
  match g with
  | .scoped w => let r := ScopedWorld.psSet w id cid; (.scoped r.1, r.2)
  | .global w => let r := GlobalWorld.gset w id cid false; (.global r.1, r.2)
  | .str s => (.str s, some cannotSetStr)
  | .undef => (.undef, some cannotSetUndef)

/-- `globals.forEach((global) => { global[id] = this.pubsubObject; })`: the
writes run in order and a throw aborts the rest (entries past the throw are
left unwritten). -/
def writeAll (gs : List PropEntry) (id : String) (cid : Nat) : List PropEntry × Option String :=
  match gs with
  | [] => ([], none)
  | g :: rest =>
      match writeEntry g id cid with
      | (g', none) => let r := writeAll rest id cid; (g' :: r.1, r.2)
      | (g', some e) => (g' :: rest, some e)

/-- The constructor's linkage handling (PSComponent.tsx lines 160-187) for a
present `pubsub` prop: destructure `[parentPubsubs, id, ...globals]`; when
the first element is a string it is the id and the remaining entries are all
globals (a second string is a TypeError); otherwise the second element must
be a string id (else TypeError) and the parent write runs before the global
writes.  Returns the prop entries after construction (writes performed
before a throw persist) and the thrown message, if any. -/
def construct (pubsub : List PropEntry) (cid : Nat) : List PropEntry × Option String :=
  let parentPubsubs := pubsub.headD .undef
  let id := (pubsub.drop 1).headD .undef
  let globals := pubsub.drop 2
  match parentPubsubs, id with
  | .str _, .str _ => (pubsub, some idCannotBeString)
  | .str s, other =>
      let r := writeAll (other :: globals) s cid
      (.str s :: r.1, r.2)
  | p, .str s =>
      match writeEntry p s cid with
      | (p', none) => let r := writeAll globals s cid; (p' :: .str s :: r.1, r.2)
      | (p', some e) => (p' :: .str s :: globals, some e)
  | _, _ => (pubsub, some idMustBeString)

/-- Registry operations on one publisher handle (the §4.1 trigger-registry
surface): subscribe, unsubscribe, create a waiter, fire. -/
inductive ROp where
  | sub (k : Name) (cb : Nat)
  | unsub (k : Name) (cb : Nat)
  | wait (k : Name) (w : Nat)
  | fire (k : Name) (args : Args)
deriving DecidableEq, Repr

/-- Run a sequence of registry operations on one component, collecting the
delivery events of the fires. -/
def runOps (c : PSComponent) : List ROp → Except String (PSComponent × List Event)
  | [] => .ok (c, [])
  | .sub k cb :: rest => (c.triggerSubscribe k cb).bind (fun c1 => runOps c1 rest)
  | .unsub k cb :: rest => (c.triggerUnsubscribe k cb).bind (fun c1 => runOps c1 rest)
  | .wait k w :: rest => (c.triggerPromise k w).bind (fun c1 => runOps c1 rest)
  | .fire k args :: rest =>
      (c.trigger k args).bind (fun r =>
        (runOps r.1 rest).map (fun r2 => (r2.1, r.2 ++ r2.2)))

/-- Interactions with a scoped registry and its components: slot reads,
handle registrations, subscribe/unsubscribe/wait through a slot, and a
publisher firing its own registry. -/
inductive WOp where
  | get (name : Name)
  | set (name : Name) (cid : Nat)
  | slotSub (name : Name) (k : Name) (cb : Nat)
  | slotUnsub (name : Name) (k : Name) (cb : Nat)
  | slotWait (name : Name) (k : Name) (w : Nat)
  | fire (cid : Nat) (k : Name) (args : Args)

/-- One interaction step.  A thrown error leaves the registry as the trap
left it (`psSet` already accounts for partial mutation) and delivers
nothing; the driver catches the exception, so the run continues. -/
def stepW (w : ScopedWorld) : WOp → ScopedWorld × List Event
  | .get n => ((ScopedWorld.psGet w n).1, [])
  | .set n cid => ((ScopedWorld.psSet w n cid).1, [])
  | .slotSub n k cb =>
      let r := ScopedWorld.psGet w n
      match r.2 with
      | .proxy p =>
          ({ r.1 with ps := JsMap.set r.1.ps n (.proxy (p.triggerSubscribe k cb)) }, [])
      | .real cid =>
          match (r.1.components cid).triggerSubscribe k cb with
          | .ok c' => ({ r.1 with components := updateComp r.1.components cid c' }, [])
          | .error _ => (r.1, [])
  | .slotUnsub n k cb =>
      let r := ScopedWorld.psGet w n
      match r.2 with
      | .proxy p =>
          ({ r.1 with ps := JsMap.set r.1.ps n (.proxy (p.triggerUnsubscribe k cb)) }, [])
      | .real cid =>
          match (r.1.components cid).triggerUnsubscribe k cb with
          | .ok c' => ({ r.1 with components := updateComp r.1.components cid c' }, [])
          | .error _ => (r.1, [])
  | .slotWait n k wid =>
      let r := ScopedWorld.psGet w n
      match r.2 with
      | .proxy p =>
          ({ r.1 with ps := JsMap.set r.1.ps n (.proxy (p.asyncGet k wid)) }, [])
      | .real cid =>
          match (r.1.components cid).triggerPromise k wid with
          | .ok c' => ({ r.1 with components := updateComp r.1.components cid c' }, [])
          | .error _ => (r.1, [])
  | .fire cid k args =>
      match (w.components cid).trigger k args with
      | .ok r => ({ w with components := updateComp w.components cid r.1 }, r.2)
      | .error _ => (w, [])

/-- Run a sequence of interactions, collecting all delivery events. -/
def runW (w : ScopedWorld) : List WOp → ScopedWorld × List Event
  | [] => (w, [])
  | op :: rest =>
      let r := stepW w op
      let r2 := runW r.1 rest
      (r2.1, r.2 ++ r2.2)

/-- The callback ids a component's registry holds. -/
def compCbs (c : PSComponent) : List Nat := TrigMap.allIds c.subscriptions

/-- The resolver ids a component's registry holds. -/
def compWs (c : PSComponent) : List Nat := TrigMap.allIds c.promises

/-- A callback id absent from every component and every slot placeholder of
the world. -/
def CbFree (w : ScopedWorld) (cb : Nat) : Prop :=
  (∀ i, cb ∉ compCbs (w.components i)) ∧
  (∀ n p, JsMap.lookup w.ps n = some (.proxy p) → cb ∉ TrigMap.allIds p.subscriptions)

/-- A resolver id absent from every component and every slot placeholder of
the world. -/
def WFree (w : ScopedWorld) (wid : Nat) : Prop :=
  (∀ i, wid ∉ compWs (w.components i)) ∧
  (∀ n p, JsMap.lookup w.ps n = some (.proxy p) → wid ∉ TrigMap.allIds p.promises)

/-- Whether an interaction passes the given callback id to a subscribe. -/
def opMentionsCb : WOp → Nat → Bool
  | .slotSub _ _ c, cb => c = cb
  | _, _ => false

/-- Whether an interaction creates a waiter with the given resolver id. -/
def opMentionsW : WOp → Nat → Bool
  | .slotWait _ _ x, wid => x = wid
  | _, _ => false

/-- The argument lists with which a given resolver id gets resolved in an
event list. -/
def resolvesOf (wid : Nat) (evs : List Event) : List Args :=
  evs.filterMap (fun e =>
    match e with
    | .resolve x a => if x = wid then some a else none
    | .invoke _ _ => none)

/-- Well-formedness of a component state (holds for every state the source
can build). -/
def compWF (c : PSComponent) : Prop :=
  mapWF c.promises ∧ mapWF c.subscriptions

instance (c : PSComponent) : Decidable (compWF c) := by
  unfold compWF; infer_instance

/-- Well-formedness of a placeholder state. -/
def proxyWF (p : PubSubProxy) : Prop :=
  mapWF p.promises ∧ mapWF p.subscriptions

instance (p : PubSubProxy) : Decidable (proxyWF p) := by
  unfold proxyWF; infer_instance

/-- Whether a registry operation creates a waiter with the given resolver
id. -/
def ROp.addsWaiter : ROp → Nat → Bool
  | .wait _ x, wid => x = wid
  | _, _ => false

/-- Whether a registry operation is a fire of the given message name. -/
def ROp.isFireOf : ROp → Name → Bool
  | .fire k _, nm => k = nm
  | _, _ => false

/-! Basic lemmas about the JavaScript `Set` and `Map` models. -/

theorem SetList.mem_add {s : List Nat} {x y : Nat} :
    y ∈ SetList.add s x ↔ y ∈ s ∨ y = x := by
  unfold SetList.add
  by_cases h : x ∈ s
  · simp only [if_pos h]
    constructor
    · exact Or.inl
    · rintro (hy | rfl)
      · exact hy
      · exact h
  · simp [if_neg h]

theorem SetList.add_of_mem {s : List Nat} {x : Nat} (h : x ∈ s) :
    SetList.add s x = s := by
  simp [SetList.add, h]

theorem SetList.nodup_add {s : List Nat} {x : Nat} (h : s.Nodup) :
    (SetList.add s x).Nodup := by
  unfold SetList.add
  by_cases hx : x ∈ s
  · simpa [hx]
  · simp only [if_neg hx]
    refine List.Nodup.append h (List.nodup_singleton x) ?_
    intro a ha hax
    rw [List.mem_singleton] at hax
    exact hx (hax ▸ ha)

theorem SetList.count_add_of_not_mem {s : List Nat} {x : Nat} (h : x ∉ s) :
    (SetList.add s x).count x = 1 := by
  simp [SetList.add, h, List.count_eq_zero_of_not_mem h]

theorem SetList.mem_del {s : List Nat} {x y : Nat} (h : y ∈ SetList.del s x) :
    y ∈ s := by
  simpa [SetList.del] using (List.mem_filter.mp h).1

theorem JsMap.lookup_set_self (m : List (Name × α)) (k : Name) (v : α) :
    JsMap.lookup (JsMap.set m k v) k = some v := by
  induction m with
  | nil => simp [JsMap.set, JsMap.lookup, List.lookup]
  | cons e rest ih =>
      by_cases h : e.1 = k
      · simp [JsMap.set, JsMap.lookup, List.lookup, h]
      · simp only [JsMap.set, if_neg h]
        simpa [JsMap.lookup, List.lookup, beq_false_of_ne (Ne.symm h)] using ih

theorem JsMap.lookup_set_ne (m : List (Name × α)) (k : Name) (v : α) (k' : Name)
    (h : k' ≠ k) : JsMap.lookup (JsMap.set m k v) k' = JsMap.lookup m k' := by
  induction m with
  | nil => simp [JsMap.set, JsMap.lookup, List.lookup, beq_false_of_ne h]
  | cons e rest ih =>
      by_cases he : e.1 = k
      · subst he
        simp [JsMap.set, JsMap.lookup, List.lookup, beq_false_of_ne h]
      · simp only [JsMap.set, if_neg he]
        by_cases hk : k' = e.1
        · subst hk
          simp [JsMap.lookup, List.lookup]
        · simpa [JsMap.lookup, List.lookup, beq_false_of_ne hk] using ih

theorem JsMap.lookup_erase_self (m : List (Name × α)) (k : Name) :
    JsMap.lookup (JsMap.erase m k) k = none := by
  induction m with
  | nil => simp [JsMap.erase, JsMap.lookup, List.lookup]
  | cons e rest ih =>
      by_cases h : e.1 = k
      · simpa [JsMap.erase, List.filter, h] using ih
      · simp only [JsMap.erase, List.filter] at ih ⊢
        simpa [h, JsMap.lookup, List.lookup, beq_false_of_ne (Ne.symm h)] using ih

theorem JsMap.lookup_erase_ne (m : List (Name × α)) (k k' : Name) (h : k' ≠ k) :
    JsMap.lookup (JsMap.erase m k) k' = JsMap.lookup m k' := by
  induction m with
  | nil => simp [JsMap.erase, JsMap.lookup, List.lookup]
  | cons e rest ih =>
      by_cases he : e.1 = k
      · subst he
        simpa [JsMap.erase, List.filter, JsMap.lookup, List.lookup,
          beq_false_of_ne h] using ih
      · simp only [JsMap.erase, List.filter] at ih ⊢
        by_cases hk : k' = e.1
        · subst hk
          simp [he, JsMap.lookup, List.lookup]
        · simpa [he, JsMap.lookup, List.lookup, beq_false_of_ne hk] using ih

theorem JsMap.set_of_lookup_eq (m : List (Name × α)) (k : Name) (v : α)
    (h : JsMap.lookup m k = some v) : JsMap.set m k v = m := by
  induction m with
  | nil => simp [JsMap.lookup, List.lookup] at h
  | cons e rest ih =>
      by_cases he : e.1 = k
      · obtain ⟨k0, v0⟩ := e
        simp only at he
        subst he
        simp only [JsMap.lookup, List.lookup, beq_self_eq_true, if_pos] at h
        obtain rfl : v0 = v := by simpa using h
        simp [JsMap.set]
      · simp only [JsMap.set, if_neg he]
        simp only [JsMap.lookup, List.lookup, beq_false_of_ne (Ne.symm he)] at h
        rw [ih h]

/-! Lemmas about the trigger-map operations. -/

theorem TrigMap.getD_addTo_self (m : TrigMap) (k : Name) (x : Nat) :
    TrigMap.getD (TrigMap.addTo m k x) k = SetList.add (TrigMap.getD m k) x := by
  simp [TrigMap.getD, TrigMap.addTo, JsMap.lookup_set_self]

theorem TrigMap.getD_addTo_ne (m : TrigMap) (k : Name) (x : Nat) (k' : Name)
    (h : k' ≠ k) : TrigMap.getD (TrigMap.addTo m k x) k' = TrigMap.getD m k' := by
  simp [TrigMap.getD, TrigMap.addTo, JsMap.lookup_set_ne _ _ _ _ h]

theorem JsMap.lookup_nil (k : Name) : JsMap.lookup ([] : List (Name × α)) k = none := rfl

theorem JsMap.lookup_cons (e : Name × α) (rest : List (Name × α)) (k : Name) :
    JsMap.lookup (e :: rest) k = if k = e.1 then some e.2 else JsMap.lookup rest k := by
  obtain ⟨a, b⟩ := e
  by_cases h : k = a
  · simp [JsMap.lookup, List.lookup, h]
  · simp [JsMap.lookup, List.lookup, beq_false_of_ne h, h]

theorem JsMap.lookup_append (m m' : List (Name × α)) (k : Name) :
    JsMap.lookup (m ++ m') k =
      match JsMap.lookup m k with
      | some v => some v
      | none => JsMap.lookup m' k := by
  induction m with
  | nil => simp [JsMap.lookup_nil]
  | cons e rest ih =>
      by_cases h : k = e.1
      · simp [JsMap.lookup_cons, h]
      · simp [JsMap.lookup_cons, h, ih]

theorem JsMap.erase_cons (e : Name × α) (rest : List (Name × α)) (k : Name) :
    JsMap.erase (e :: rest) k =
      if e.1 = k then JsMap.erase rest k else e :: JsMap.erase rest k := by
  by_cases h : e.1 = k <;> simp [JsMap.erase, List.filter_cons, h]

theorem TrigMap.allIds_nil : TrigMap.allIds [] = [] := rfl

theorem TrigMap.allIds_cons (e : Name × List Nat) (rest : TrigMap) :
    TrigMap.allIds (e :: rest) = e.2 ++ TrigMap.allIds rest := by
  simp [TrigMap.allIds]

theorem TrigMap.getD_ensure_self (m : TrigMap) (k : Name) :
    TrigMap.getD (TrigMap.ensure m k) k = TrigMap.getD m k := by
  unfold TrigMap.ensure
  by_cases hs : (JsMap.lookup m k).isSome
  · simp [hs]
  · rw [Option.not_isSome_iff_eq_none] at hs
    simp only [hs, Option.isSome_none, Bool.false_eq_true, if_false]
    unfold TrigMap.getD
    rw [JsMap.lookup_append, hs]
    simp [JsMap.lookup_cons]

theorem TrigMap.lookup_ensure_ne (m : TrigMap) (k k' : Name) (h : k' ≠ k) :
    JsMap.lookup (TrigMap.ensure m k) k' = JsMap.lookup m k' := by
  unfold TrigMap.ensure
  by_cases hs : (JsMap.lookup m k).isSome
  · simp [hs]
  · simp only [hs, Bool.false_eq_true, if_false]
    rw [JsMap.lookup_append]
    cases hl : JsMap.lookup m k' with
    | some v => simp
    | none => simp [JsMap.lookup_cons, JsMap.lookup_nil, h]

theorem TrigMap.mem_allIds_of_mem_getD {m : TrigMap} {k : Name} {x : Nat}
    (h : x ∈ TrigMap.getD m k) : x ∈ TrigMap.allIds m := by
  unfold TrigMap.getD at h
  induction m with
  | nil => simp [JsMap.lookup_nil] at h
  | cons e rest ih =>
      rw [JsMap.lookup_cons] at h
      rw [TrigMap.allIds_cons, List.mem_append]
      by_cases hk : k = e.1
      · simp only [hk, if_pos] at h
        exact Or.inl (by simpa using h)
      · simp only [hk, if_neg, if_false] at h
        exact Or.inr (ih h)

theorem TrigMap.mem_allIds_set {m : TrigMap} {k : Name} {v : List Nat} {y : Nat}
    (h : y ∈ TrigMap.allIds (JsMap.set m k v)) :
    y ∈ TrigMap.allIds m ∨ y ∈ v := by
  induction m with
  | nil =>
      simp only [JsMap.set, TrigMap.allIds_cons, TrigMap.allIds_nil,
        List.append_nil] at h
      exact Or.inr h
  | cons e rest ih =>
      by_cases he : e.1 = k
      · simp only [JsMap.set, if_pos he, TrigMap.allIds_cons,
          List.mem_append] at h
        rcases h with h | h
        · exact Or.inr h
        · exact Or.inl (by rw [TrigMap.allIds_cons, List.mem_append]; exact Or.inr h)
      · simp only [JsMap.set, if_neg he, TrigMap.allIds_cons,
          List.mem_append] at h
        rcases h with h | h
        · exact Or.inl (by rw [TrigMap.allIds_cons, List.mem_append]; exact Or.inl h)
        · rcases ih h with h' | h'
          · exact Or.inl (by rw [TrigMap.allIds_cons, List.mem_append]; exact Or.inr h')
          · exact Or.inr h'

theorem TrigMap.mem_allIds_addTo {m : TrigMap} {k : Name} {x y : Nat}
    (h : y ∈ TrigMap.allIds (TrigMap.addTo m k x)) :
    y ∈ TrigMap.allIds m ∨ y = x := by
  rcases TrigMap.mem_allIds_set h with h' | h'
  · exact Or.inl h'
  · rcases SetList.mem_add.mp h' with h'' | h''
    · exact Or.inl (TrigMap.mem_allIds_of_mem_getD h'')
    · exact Or.inr h''

theorem TrigMap.allIds_erase_subset {m : TrigMap} {k : Name} {y : Nat}
    (h : y ∈ TrigMap.allIds (JsMap.erase m k)) : y ∈ TrigMap.allIds m := by
  induction m with
  | nil => simpa [JsMap.erase] using h
  | cons e rest ih =>
      rw [JsMap.erase_cons] at h
      rw [TrigMap.allIds_cons, List.mem_append]
      by_cases he : e.1 = k
      · simp only [if_pos he] at h
        exact Or.inr (ih h)
      · simp only [if_neg he, TrigMap.allIds_cons, List.mem_append] at h
        rcases h with h | h
        · exact Or.inl h
        · exact Or.inr (ih h)

theorem TrigMap.mem_allIds_ensure {m : TrigMap} {k : Name} {y : Nat}
    (h : y ∈ TrigMap.allIds (TrigMap.ensure m k)) : y ∈ TrigMap.allIds m := by
  unfold TrigMap.ensure at h
  by_cases hs : (JsMap.lookup m k).isSome
  · simpa [hs] using h
  · simp only [hs, Bool.false_eq_true, if_false, TrigMap.allIds] at h
    simpa [List.map_append, List.flatten_append, TrigMap.allIds] using h

theorem JsMap.lookup_mem {m : List (Name × α)} {k : Name} {v : α}
    (h : JsMap.lookup m k = some v) : (k, v) ∈ m := by
  induction m with
  | nil => simp [JsMap.lookup_nil] at h
  | cons e rest ih =>
      rw [JsMap.lookup_cons] at h
      by_cases hk : k = e.1
      · simp only [hk, if_pos] at h
        obtain ⟨a, b⟩ := e
        simp only at hk h
        subst hk
        obtain rfl : b = v := by simpa using h
        exact List.mem_cons_self _ _
      · simp only [hk, if_neg, if_false] at h
        exact List.mem_cons_of_mem _ (ih h)

theorem JsMap.lookup_none_iff {m : List (Name × α)} {k : Name} :
    JsMap.lookup m k = none ↔ k ∉ m.map Prod.fst := by
  induction m with
  | nil => simp [JsMap.lookup_nil]
  | cons e rest ih =>
      rw [JsMap.lookup_cons]
      by_cases hk : k = e.1
      · simp [hk]
      · simp [hk, ih]

theorem JsMap.mem_set {m : List (Name × α)} {k : Name} {v : α} {e' : Name × α}
    (h : e' ∈ JsMap.set m k v) : e' ∈ m ∨ e' = (k, v) := by
  induction m with
  | nil => exact Or.inr (by simpa [JsMap.set] using h)
  | cons e rest ih =>
      by_cases he : e.1 = k
      · simp only [JsMap.set, if_pos he, List.mem_cons] at h
        rcases h with h | h
        · exact Or.inr h
        · exact Or.inl (List.mem_cons_of_mem _ h)
      · simp only [JsMap.set, if_neg he, List.mem_cons] at h
        rcases h with h | h
        · exact Or.inl (h ▸ List.mem_cons_self _ _)
        · rcases ih h with h' | h'
          · exact Or.inl (List.mem_cons_of_mem _ h')
          · exact Or.inr h'

theorem JsMap.keys_set (m : List (Name × α)) (k : Name) (v : α) :
    (JsMap.set m k v).map Prod.fst =
      if (JsMap.lookup m k).isSome then m.map Prod.fst
      else m.map Prod.fst ++ [k] := by
  induction m with
  | nil => simp [JsMap.set, JsMap.lookup_nil]
  | cons e rest ih =>
      rw [JsMap.lookup_cons]
      by_cases he : e.1 = k
      · simp [JsMap.set, he]
      · have hne : k ≠ e.1 := fun hh => he hh.symm
        simp only [JsMap.set, if_neg he, List.map_cons, ih, hne, if_neg,
          if_false]
        by_cases hs : (JsMap.lookup rest k).isSome
        · simp [hs]
        · simp [hs]

theorem JsMap.keys_erase_sublist (m : List (Name × α)) (k : Name) :
    ((JsMap.erase m k).map Prod.fst).Sublist (m.map Prod.fst) :=
  (List.filter_sublist m).map Prod.fst

theorem JsMap.mem_erase {m : List (Name × α)} {k : Name} {e' : Name × α}
    (h : e' ∈ JsMap.erase m k) : e' ∈ m :=
  List.mem_of_mem_filter h

theorem mapWF_getD_nodup {m : TrigMap} {k : Name} (h : mapWF m) :
    (TrigMap.getD m k).Nodup := by
  unfold TrigMap.getD
  cases hl : JsMap.lookup m k with
  | none => simp
  | some v => exact h.2 _ (JsMap.lookup_mem hl)

theorem mapWF_set {m : TrigMap} {k : Name} {v : List Nat} (h : mapWF m)
    (hv : v.Nodup) : mapWF (JsMap.set m k v) := by
  constructor
  · rw [JsMap.keys_set]
    by_cases hs : (JsMap.lookup m k).isSome
    · simpa [hs] using h.1
    · simp only [hs, Bool.false_eq_true, if_false]
      refine List.Nodup.append h.1 (List.nodup_singleton k) ?_
      intro a ha hak
      rw [List.mem_singleton] at hak
      subst hak
      rw [Option.not_isSome_iff_eq_none, JsMap.lookup_none_iff] at hs
      exact hs ha
  · intro e he
    rcases JsMap.mem_set he with h' | h'
    · exact h.2 _ h'
    · rw [h']
      exact hv

theorem mapWF_addTo {m : TrigMap} {k : Name} {x : Nat} (h : mapWF m) :
    mapWF (TrigMap.addTo m k x) :=
  mapWF_set h (SetList.nodup_add (mapWF_getD_nodup h))

theorem mapWF_erase {m : TrigMap} {k : Name} (h : mapWF m) :
    mapWF (JsMap.erase m k) := by
  constructor
  · exact (JsMap.keys_erase_sublist m k).nodup h.1
  · intro e he
    exact h.2 _ (JsMap.mem_erase he)

theorem mapWF_ensure {m : TrigMap} {k : Name} (h : mapWF m) :
    mapWF (TrigMap.ensure m k) := by
  unfold TrigMap.ensure
  by_cases hs : (JsMap.lookup m k).isSome
  · simpa [hs] using h
  · simp only [hs, Bool.false_eq_true, if_false]
    constructor
    · rw [List.map_append]
      refine List.Nodup.append h.1 (by simp) ?_
      intro a ha hak
      simp only [List.map_cons, List.map_nil, List.mem_singleton] at hak
      subst hak
      rw [Option.not_isSome_iff_eq_none, JsMap.lookup_none_iff] at hs
      exact hs ha
    · intro e he
      rcases List.mem_append.mp he with h' | h'
      · exact h.2 _ h'
      · simp only [List.mem_singleton] at h'
        rw [h']
        simp

/-! Lemmas about the component operations and the forwarding folds. -/

theorem PSComponent.triggerSubscribe_ok {c : PSComponent} (h : c.finalized = false)
    (k : Name) (cb : Nat) :
    c.triggerSubscribe k cb =
      .ok { c with subscriptions := TrigMap.addTo c.subscriptions k cb } := by
  simp [PSComponent.triggerSubscribe, h]

theorem PSComponent.subscribeList_nil (t : PSComponent) :
    PSComponent.subscribeList t [] = .ok t := rfl

theorem PSComponent.subscribeList_cons (t : PSComponent) (e : Name × Nat)
    (rest : List (Name × Nat)) :
    PSComponent.subscribeList t (e :: rest) =
      (t.triggerSubscribe e.1 e.2).bind
        (fun t1 => PSComponent.subscribeList t1 rest) := by
  cases h : t.triggerSubscribe e.1 e.2 with
  | ok t1 =>
      simp only [PSComponent.subscribeList, List.foldlM_cons, h]
      rfl
  | error msg =>
      simp only [PSComponent.subscribeList, List.foldlM_cons, h]
      rfl

theorem PSComponent.subscribeList_ok (l : List (Name × Nat)) :
    ∀ {t : PSComponent}, t.finalized = false →
    ∃ t', PSComponent.subscribeList t l = .ok t' ∧ t'.finalized = false ∧
      t'.promises = t.promises ∧
      (∀ k, TrigMap.getD t'.subscriptions k =
        ((l.filter (fun e => e.1 = k)).map Prod.snd).foldl SetList.add
          (TrigMap.getD t.subscriptions k)) ∧
      (mapWF t.subscriptions → mapWF t'.subscriptions) ∧
      (∀ y, y ∈ TrigMap.allIds t'.subscriptions →
        y ∈ TrigMap.allIds t.subscriptions ∨ y ∈ l.map Prod.snd) := by
  induction l with
  | nil =>
      intro t h
      refine ⟨t, rfl, h, rfl, ?_, fun hw => hw, fun y hy => Or.inl hy⟩
      intro k
      simp
  | cons e rest ih =>
      intro t h
      have hstep := PSComponent.triggerSubscribe_ok h e.1 e.2
      set t1 : PSComponent :=
        { t with subscriptions := TrigMap.addTo t.subscriptions e.1 e.2 } with ht1
      have h1 : t1.finalized = false := h
      obtain ⟨t', hrun, hfin, hprom, hget, hwf, hids⟩ := ih h1
      refine ⟨t', ?_, hfin, hprom, ?_, ?_, ?_⟩
      · rw [PSComponent.subscribeList_cons, hstep]
        exact hrun
      · intro k
        rw [hget k]
        by_cases hk : e.1 = k
        · subst hk
          simp only [List.filter_cons, decide_eq_true_eq, if_pos rfl,
            List.map_cons, List.foldl_cons, ht1]
          rw [TrigMap.getD_addTo_self]
          simp
        · have hk' : k ≠ e.1 := fun hh => hk hh.symm
          have : (decide (e.1 = k)) = false := by simpa using hk
          simp only [List.filter_cons, this, Bool.false_eq_true, if_false, ht1]
          rw [TrigMap.getD_addTo_ne _ _ _ _ hk']
      · intro hw
        exact hwf (mapWF_addTo hw)
      · intro y hy
        rcases hids y hy with hy' | hy'
        · rcases TrigMap.mem_allIds_addTo hy' with hy'' | hy''
          · exact Or.inl hy''
          · exact Or.inr (by simp [hy''])
        · exact Or.inr (by simp [hy'])

theorem PSComponent.relayList_subscriptions (l : List (Name × Nat)) :
    ∀ t : PSComponent, (PSComponent.relayList t l).subscriptions = t.subscriptions := by
  induction l with
  | nil => intro t; rfl
  | cons e rest ih =>
      intro t
      show (PSComponent.relayList (PSComponent.relayOne t e.1 e.2) rest).subscriptions = _
      rw [ih]
      unfold PSComponent.relayOne
      by_cases h : t.finalized <;> simp [h]

theorem PSComponent.relayList_finalized (l : List (Name × Nat)) :
    ∀ t : PSComponent, (PSComponent.relayList t l).finalized = t.finalized := by
  induction l with
  | nil => intro t; rfl
  | cons e rest ih =>
      intro t
      show (PSComponent.relayList (PSComponent.relayOne t e.1 e.2) rest).finalized = _
      rw [ih]
      unfold PSComponent.relayOne
      by_cases h : t.finalized <;> simp [h]

theorem PSComponent.mem_relayList_promises (l : List (Name × Nat)) :
    ∀ (t : PSComponent) (y : Nat), y ∈ TrigMap.allIds (PSComponent.relayList t l).promises →
      y ∈ TrigMap.allIds t.promises ∨ y ∈ l.map Prod.snd := by
  induction l with
  | nil => intro t y hy; exact Or.inl hy
  | cons e rest ih =>
      intro t y hy
      have hy' := ih (PSComponent.relayOne t e.1 e.2) y hy
      rcases hy' with hy' | hy'
      · unfold PSComponent.relayOne at hy'
        by_cases h : t.finalized
        · simp only [h, if_pos] at hy'
          exact Or.inl hy'
        · simp only [h, Bool.false_eq_true, if_false] at hy'
          rcases TrigMap.mem_allIds_addTo hy' with hy'' | hy''
          · exact Or.inl hy''
          · exact Or.inr (by simp [hy''])
      · exact Or.inr (by simp [hy'])

theorem PSComponent.mem_entryPairs_key {m : TrigMap} {e : Name × Nat}
    (h : e ∈ PSComponent.entryPairs m) : e.1 ∈ m.map Prod.fst := by
  unfold PSComponent.entryPairs at h
  rw [List.mem_flatMap] at h
  obtain ⟨a, ha, he⟩ := h
  rw [List.mem_map] at he
  obtain ⟨x, _, hx⟩ := he
  rw [← hx]
  exact List.mem_map_of_mem Prod.fst ha

theorem PSComponent.entryPairs_filter_of_not_mem {m : TrigMap} {k : Name}
    (h : k ∉ m.map Prod.fst) :
    (PSComponent.entryPairs m).filter (fun e => e.1 = k) = [] := by
  rw [List.filter_eq_nil_iff]
  intro e he
  simp only [decide_eq_true_eq]
  intro hk
  exact h (hk ▸ PSComponent.mem_entryPairs_key he)

theorem PSComponent.entryPairs_filter {m : TrigMap} (k : Name) (h : mapWF m) :
    ((PSComponent.entryPairs m).filter (fun e => e.1 = k)).map Prod.snd =
      TrigMap.getD m k := by
  induction m with
  | nil => simp [PSComponent.entryPairs, TrigMap.getD, JsMap.lookup_nil]
  | cons e rest ih =>
      have hrest : mapWF rest := by
        constructor
        · exact (List.nodup_cons.mp h.1).2
        · intro a ha
          exact h.2 _ (List.mem_cons_of_mem _ ha)
      have hkey : e.1 ∉ rest.map Prod.fst := (List.nodup_cons.mp h.1).1
      unfold PSComponent.entryPairs
      rw [List.flatMap_cons, List.filter_append, List.map_append]
      by_cases hk : e.1 = k
      · subst hk
        have h1 : (List.map (fun x => (e.1, x)) e.2).filter (fun p => p.1 = e.1) =
            List.map (fun x => (e.1, x)) e.2 := by
          rw [List.filter_eq_self]
          intro a ha
          rw [List.mem_map] at ha
          obtain ⟨x, _, hx⟩ := ha
          simp [← hx]
        have h2 := PSComponent.entryPairs_filter_of_not_mem hkey
        unfold PSComponent.entryPairs at h2
        rw [h1, h2]
        simp only [List.map_nil, List.append_nil, List.map_map]
        unfold TrigMap.getD
        rw [JsMap.lookup_cons]
        simp [Function.comp]
      · have h1 : (List.map (fun x => (e.1, x)) e.2).filter (fun p => p.1 = k) = [] := by
          rw [List.filter_eq_nil_iff]
          intro a ha
          rw [List.mem_map] at ha
          obtain ⟨x, _, hx⟩ := ha
          simp [← hx, hk]
        rw [h1]
        simp only [List.map_nil, List.nil_append]
        have := ih hrest
        unfold PSComponent.entryPairs at this
        rw [this]
        unfold TrigMap.getD
        rw [JsMap.lookup_cons]
        have : k ≠ e.1 := fun hh => hk hh.symm
        simp [this]

theorem SetList.foldl_add_mem (l : List Nat) :
    ∀ (s : List Nat) (y : Nat), y ∈ l.foldl SetList.add s ↔ y ∈ s ∨ y ∈ l := by
  induction l with
  | nil => intro s y; simp
  | cons x rest ih =>
      intro s y
      rw [List.foldl_cons, ih]
      rw [SetList.mem_add]
      constructor
      · rintro ((hy | rfl) | hy)
        · exact Or.inl hy
        · exact Or.inr (List.mem_cons_self _ _)
        · exact Or.inr (List.mem_cons_of_mem _ hy)
      · rintro (hy | hy)
        · exact Or.inl (Or.inl hy)
        · rcases List.mem_cons.mp hy with rfl | hy'
          · exact Or.inl (Or.inr rfl)
          · exact Or.inr hy'

theorem SetList.foldl_add_nodup (l : List Nat) :
    ∀ {s : List Nat}, s.Nodup → (l.foldl SetList.add s).Nodup := by
  induction l with
  | nil => intro s h; exact h
  | cons x rest ih =>
      intro s h
      rw [List.foldl_cons]
      exact ih (SetList.nodup_add h)

/-! Claim theorems. -/

/-- C4: on a non-sealed registry, `fire(name, args)` first resolves and
removes every pending waiter for that name (each with the same args
snapshot), then invokes every currently subscribed callback for that name
with the args in insertion order; the waiter set for that name is cleared
unconditionally; other names' subscriptions and waiters are untouched; and
firing with no subscribers and no waiters completes without error and
delivers nothing. -/
theorem C4_fire_semantics (c : PSComponent) (nm : Name) (args : Args)
    (h : c.finalized = false) :
    ∃ c', c.trigger nm args =
        .ok (c', (TrigMap.getD c.promises nm).map (Event.resolve · args) ++
                 (TrigMap.getD c.subscriptions nm).map (Event.invoke · args)) ∧
      JsMap.lookup c'.promises nm = none ∧
      (∀ k, k ≠ nm → JsMap.lookup c'.promises k = JsMap.lookup c.promises k) ∧
      (∀ k, k ≠ nm → JsMap.lookup c'.subscriptions k = JsMap.lookup c.subscriptions k) ∧
      (TrigMap.getD c.promises nm = [] → TrigMap.getD c.subscriptions nm = [] →
        c.trigger nm args = .ok (c', [])) := by
  refine ⟨{ c with promises := JsMap.erase c.promises nm, subscriptions := TrigMap.ensure c.subscriptions nm }, ?_, ?_, ?_, ?_, ?_⟩
  · simp [PSComponent.trigger, h]
  · exact JsMap.lookup_erase_self _ _
  · intro k hk
    exact JsMap.lookup_erase_ne _ _ _ hk
  · intro k hk
    exact TrigMap.lookup_ensure_ne _ _ _ hk
  · intro hp hs
    simp [PSComponent.trigger, h, hp, hs]

theorem C4_fire_semantics_witness :
    (⟨[("m", [3, 4])], [("m", [8])], false⟩ : PSComponent).finalized = false ∧
    ∃ c', PSComponent.trigger ⟨[("m", [3, 4])], [("m", [8])], false⟩ "m" [1] =
        .ok (c', (TrigMap.getD [("m", [3, 4])] "m").map (Event.resolve · [1]) ++
                 (TrigMap.getD [("m", [8])] "m").map (Event.invoke · [1])) ∧
      JsMap.lookup c'.promises "m" = none ∧
      (∀ k, k ≠ "m" → JsMap.lookup c'.promises k = JsMap.lookup ([("m", [3, 4])] : TrigMap) k) ∧
      (∀ k, k ≠ "m" → JsMap.lookup c'.subscriptions k = JsMap.lookup ([("m", [8])] : TrigMap) k) ∧
      (TrigMap.getD [("m", [3, 4])] "m" = [] → TrigMap.getD [("m", [8])] "m" = [] →
        PSComponent.trigger ⟨[("m", [3, 4])], [("m", [8])], false⟩ "m" [1] = .ok (c', [])) :=
  ⟨rfl, C4_fire_semantics ⟨[("m", [3, 4])], [("m", [8])], false⟩ "m" [1] rfl⟩

/-- C5: every subscribe, unsubscribe, promise request, or fire on a handle
whose `finalizeTriggers` has already run raises the "Already finalized."
error, and a second `finalizeTriggers` on the same handle raises it too.
The guard throws before touching any state, so no operation mutates the
sealed registry (the error result carries no mutated state). -/
theorem C5_sealed_ops_raise (c t : PSComponent) (r : PSComponent × PSComponent)
    (h : c.finalizeTriggers t = .ok r) (k : Name) (cb wid : Nat) (args : Args)
    (t2 : PSComponent) :
    r.1.triggerSubscribe k cb = .error alreadyFinalized ∧
    r.1.triggerUnsubscribe k cb = .error alreadyFinalized ∧
    r.1.triggerPromise k wid = .error alreadyFinalized ∧
    r.1.trigger k args = .error alreadyFinalized ∧
    r.1.finalizeTriggers t2 = .error alreadyFinalized := by
  have hr : r.1 = ⟨[], [], true⟩ := by
    unfold PSComponent.finalizeTriggers at h
    by_cases hc : c.finalized = true
    · rw [if_pos hc] at h
      exact absurd h (by simp)
    · rw [if_neg hc] at h
      cases hs : PSComponent.subscribeAll c.subscriptions
          (PSComponent.relayAll c.promises t) with
      | ok t' =>
          rw [hs] at h
          have heq : (⟨⟨[], [], true⟩, t'⟩ : PSComponent × PSComponent) = r := by
            simpa [Except.map] using h
          rw [← heq]
      | error e =>
          rw [hs] at h
          simp [Except.map] at h
  rw [hr]
  exact ⟨rfl, rfl, rfl, rfl, rfl⟩

theorem C5_sealed_ops_raise_witness :
    (PSComponent.finalizeTriggers ⟨[], [("a", [3])], false⟩ ⟨[], [], false⟩ =
      .ok (⟨[], [], true⟩, ⟨[], [("a", [3])], false⟩)) ∧
    ((⟨[], [], true⟩ : PSComponent).triggerSubscribe "a" 1 = .error alreadyFinalized ∧
     (⟨[], [], true⟩ : PSComponent).triggerUnsubscribe "a" 1 = .error alreadyFinalized ∧
     (⟨[], [], true⟩ : PSComponent).triggerPromise "a" 2 = .error alreadyFinalized ∧
     (⟨[], [], true⟩ : PSComponent).trigger "a" [5] = .error alreadyFinalized ∧
     (⟨[], [], true⟩ : PSComponent).finalizeTriggers ⟨[], [], false⟩ =
       .error alreadyFinalized) :=
  ⟨by rfl,
   C5_sealed_ops_raise ⟨[], [("a", [3])], false⟩ ⟨[], [], false⟩
     (⟨[], [], true⟩, ⟨[], [("a", [3])], false⟩) (by rfl) "a" 1 2 [5] ⟨[], [], false⟩⟩

/-- C7: subscribing the same callback twice for a name leaves the registry in
the same state as subscribing it once, and a subsequent fire of that name
delivers to that callback exactly once, not twice. -/
theorem C7_subscribe_idempotent :
    (∀ (c : PSComponent) (k : Name) (cb : Nat),
      (c.triggerSubscribe k cb).bind (fun c1 => c1.triggerSubscribe k cb) =
        c.triggerSubscribe k cb) ∧
    (∀ (c : PSComponent) (k : Name) (cb : Nat) (args : Args) (c1 : PSComponent),
      cb ∉ TrigMap.getD c.subscriptions k →
      c.triggerSubscribe k cb = .ok c1 →
      ∃ c2 evs, c1.trigger k args = .ok (c2, evs) ∧
        evs.count (Event.invoke cb args) = 1) := by
  constructor
  · intro c k cb
    by_cases hc : c.finalized = true
    · show Except.bind _ _ = _
      simp only [PSComponent.triggerSubscribe, hc, if_pos]
      rfl
    · have hc' : c.finalized = false := eq_false_of_ne_true hc
      rw [PSComponent.triggerSubscribe_ok hc' k cb]
      show Except.bind _ _ = _
      rw [Except.bind]
      set c1 : PSComponent :=
        { c with subscriptions := TrigMap.addTo c.subscriptions k cb } with hc1
      have h1 : c1.finalized = false := hc'
      rw [PSComponent.triggerSubscribe_ok h1 k cb]
      have hmem : cb ∈ TrigMap.getD c1.subscriptions k := by
        show cb ∈ TrigMap.getD (TrigMap.addTo c.subscriptions k cb) k
        rw [TrigMap.getD_addTo_self]
        exact SetList.mem_add.mpr (Or.inr rfl)
      have haddTo : TrigMap.addTo c1.subscriptions k cb = c1.subscriptions := by
        unfold TrigMap.addTo
        rw [SetList.add_of_mem hmem]
        apply JsMap.set_of_lookup_eq
        unfold TrigMap.getD at hmem
        cases hl : JsMap.lookup c1.subscriptions k with
        | none => rw [hl] at hmem; simp at hmem
        | some s => simp [TrigMap.getD, hl]
      rw [haddTo]
  · intro c k cb args c1 hcb hok
    by_cases hc : c.finalized = true
    · simp [PSComponent.triggerSubscribe, hc] at hok
    · have hc' : c.finalized = false := eq_false_of_ne_true hc
      rw [PSComponent.triggerSubscribe_ok hc' k cb] at hok
      have hc1 : ({ c with subscriptions := TrigMap.addTo c.subscriptions k cb }
          : PSComponent) = c1 := by
        exact Except.ok.inj hok
      have h1 : c1.finalized = false := by rw [← hc1]; exact hc'
      have htrig : c1.trigger k args =
          .ok ({ c1 with promises := JsMap.erase c1.promises k,
                         subscriptions := TrigMap.ensure c1.subscriptions k },
               (TrigMap.getD c1.promises k).map (Event.resolve · args) ++
               (TrigMap.getD c1.subscriptions k).map (Event.invoke · args)) := by
        simp [PSComponent.trigger, h1]
      refine ⟨_, _, htrig, ?_⟩
      rw [List.count_append]
      have hres : ((TrigMap.getD c1.promises k).map
          (fun w => Event.resolve w args)).count (Event.invoke cb args) = 0 := by
        apply List.count_eq_zero_of_not_mem
        intro hmem
        rw [List.mem_map] at hmem
        obtain ⟨x, _, hx⟩ := hmem
        exact Event.noConfusion hx
      rw [hres, Nat.zero_add]
      have hinj : Function.Injective (fun x => Event.invoke x args) := by
        intro a b hab
        simpa using hab
      rw [List.count_map_of_injective _ _ hinj]
      rw [← hc1]
      show (TrigMap.getD (TrigMap.addTo c.subscriptions k cb) k).count cb = 1
      rw [TrigMap.getD_addTo_self]
      unfold SetList.add
      rw [if_neg hcb, List.count_append]
      rw [List.count_eq_zero_of_not_mem hcb]
      simp

theorem C7_subscribe_idempotent_witness :
    ((PSComponent.triggerSubscribe ⟨[], [], false⟩ "m" 5).bind
        (fun c1 => c1.triggerSubscribe "m" 5) =
      PSComponent.triggerSubscribe ⟨[], [], false⟩ "m" 5) ∧
    (5 ∉ TrigMap.getD ([] : TrigMap) "m" ∧
      ∃ c2 evs, PSComponent.trigger ⟨[], [("m", [5])], false⟩ "m" [9] = .ok (c2, evs) ∧
        evs.count (Event.invoke 5 [9]) = 1) :=
  ⟨C7_subscribe_idempotent.1 ⟨[], [], false⟩ "m" 5,
   by simp [TrigMap.getD, JsMap.lookup_nil],
   C7_subscribe_idempotent.2 ⟨[], [], false⟩ "m" 5 [9] ⟨[], [("m", [5])], false⟩
     (by simp [TrigMap.getD, JsMap.lookup_nil]) (by rfl)⟩

theorem PSComponent.trigger_count_invoke {c : PSComponent} (h : c.finalized = false)
    (n : Name) (args : Args) :
    ∃ c2 evs, c.trigger n args = .ok (c2, evs) ∧
      ∀ cb, evs.count (Event.invoke cb args) =
        (TrigMap.getD c.subscriptions n).count cb := by
  have htrig : c.trigger n args =
      .ok ({ c with promises := JsMap.erase c.promises n, subscriptions := TrigMap.ensure c.subscriptions n },
           (TrigMap.getD c.promises n).map (Event.resolve · args) ++
           (TrigMap.getD c.subscriptions n).map (Event.invoke · args)) := by
    simp [PSComponent.trigger, h]
  refine ⟨_, _, htrig, ?_⟩
  intro cb
  rw [List.count_append]
  have hres : ((TrigMap.getD c.promises n).map
      (fun w => Event.resolve w args)).count (Event.invoke cb args) = 0 := by
    apply List.count_eq_zero_of_not_mem
    intro hmem
    rw [List.mem_map] at hmem
    obtain ⟨x, _, hx⟩ := hmem
    exact Event.noConfusion hx
  rw [hres, Nat.zero_add]
  have hinj : Function.Injective (fun x => Event.invoke x args) := by
    intro a b hab
    simpa using hab
  exact List.count_map_of_injective _ _ hinj cb

theorem PubSubProxy.finalize_ok (p : PubSubProxy) (t : PSComponent)
    (ht : t.finalized = false) :
    ∃ t', p.finalize t = .ok (⟨[], []⟩, t') ∧ t'.finalized = false ∧
      (∀ k, TrigMap.getD t'.subscriptions k =
        (((PSComponent.entryPairs p.subscriptions).filter
          (fun e => e.1 = k)).map Prod.snd).foldl SetList.add
          (TrigMap.getD t.subscriptions k)) ∧
      (mapWF t.subscriptions → mapWF t'.subscriptions) := by
  set t0 := PSComponent.relayAll p.promises t with ht0
  have h0fin : t0.finalized = false := by
    rw [ht0]
    unfold PSComponent.relayAll
    rw [PSComponent.relayList_finalized]
    exact ht
  have h0subs : t0.subscriptions = t.subscriptions := by
    rw [ht0]
    unfold PSComponent.relayAll
    rw [PSComponent.relayList_subscriptions]
  obtain ⟨t', hrun, hfin, _, hget, hwf, _⟩ :=
    PSComponent.subscribeList_ok (PSComponent.entryPairs p.subscriptions) h0fin
  refine ⟨t', ?_, hfin, ?_, ?_⟩
  · unfold PubSubProxy.finalize PSComponent.subscribeAll
    rw [← ht0, hrun]
    rfl
  · intro k
    rw [hget k, h0subs]
  · intro hw
    have := hwf (by rw [h0subs]; exact hw)
    exact this

/-- C1: finalizing a Placeholder onto a live real handle registers every
buffered durable callback on the real handle exactly once per buffered
callback, clears the Placeholder's promise and subscription maps, and a
subsequent fire of that name on the real handle invokes each such callback
exactly once with the fired args; before the finalize, a fire on the real
handle does not invoke a callback buffered only in the Placeholder (the
Placeholder itself has no fire operation). -/
theorem C1_placeholder_subscription_forwarding (p : PubSubProxy) (r : PSComponent)
    (hr : r.finalized = false) (hwp : mapWF p.subscriptions)
    (hwr : mapWF r.subscriptions) :
    ∃ p' r', p.finalize r = .ok (p', r') ∧
      p'.promises = [] ∧ p'.subscriptions = [] ∧
      r'.finalized = false ∧
      (∀ n cb, cb ∈ TrigMap.getD p.subscriptions n →
        (TrigMap.getD r'.subscriptions n).count cb = 1) ∧
      (∀ n cb args, cb ∈ TrigMap.getD p.subscriptions n →
        ∃ r2 evs, r'.trigger n args = .ok (r2, evs) ∧
          evs.count (Event.invoke cb args) = 1) ∧
      (∀ n cb args r2 evs, cb ∈ TrigMap.getD p.subscriptions n →
        cb ∉ TrigMap.getD r.subscriptions n →
        r.trigger n args = .ok (r2, evs) → Event.invoke cb args ∉ evs) := by
  obtain ⟨r', hrun, hfin, hget, hwf⟩ := PubSubProxy.finalize_ok p r hr
  have hgetD : ∀ n, TrigMap.getD r'.subscriptions n =
      (TrigMap.getD p.subscriptions n).foldl SetList.add
        (TrigMap.getD r.subscriptions n) := by
    intro n
    rw [hget n, PSComponent.entryPairs_filter n hwp]
  have hcount : ∀ n cb, cb ∈ TrigMap.getD p.subscriptions n →
      (TrigMap.getD r'.subscriptions n).count cb = 1 := by
    intro n cb hcb
    rw [hgetD n]
    apply List.count_eq_one_of_mem
    · exact SetList.foldl_add_nodup _ (mapWF_getD_nodup hwr)
    · exact (SetList.foldl_add_mem _ _ _).mpr (Or.inr hcb)
  refine ⟨⟨[], []⟩, r', hrun, rfl, rfl, hfin, hcount, ?_, ?_⟩
  · intro n cb args hcb
    obtain ⟨c2, evs, htrig, hcnt⟩ := PSComponent.trigger_count_invoke hfin n args
    refine ⟨c2, evs, htrig, ?_⟩
    rw [hcnt cb]
    exact hcount n cb hcb
  · intro n cb args r2 evs hcb hnotr htrig
    obtain ⟨c2, evs2, htrig2, hcnt2⟩ := PSComponent.trigger_count_invoke hr n args
    rw [htrig] at htrig2
    have hpair := Except.ok.inj htrig2
    injection hpair with h1 h2
    intro hmem
    rw [h2] at hmem
    have hzero := hcnt2 cb
    rw [List.count_eq_zero_of_not_mem hnotr] at hzero
    have hpos := List.count_pos_iff.mpr hmem
    omega

theorem C1_placeholder_subscription_forwarding_witness :
    ((⟨[], [], false⟩ : PSComponent).finalized = false ∧
     mapWF ([("m", [5])] : TrigMap) ∧ mapWF ([] : TrigMap)) ∧
    ∃ p' r', PubSubProxy.finalize ⟨[("m", [7])], [("m", [5])]⟩ ⟨[], [], false⟩ =
        .ok (p', r') ∧
      p'.promises = [] ∧ p'.subscriptions = [] ∧
      r'.finalized = false ∧
      (∀ n cb, cb ∈ TrigMap.getD [("m", [5])] n →
        (TrigMap.getD r'.subscriptions n).count cb = 1) ∧
      (∀ n cb args, cb ∈ TrigMap.getD [("m", [5])] n →
        ∃ r2 evs, r'.trigger n args = .ok (r2, evs) ∧
          evs.count (Event.invoke cb args) = 1) ∧
      (∀ n cb args r2 evs, cb ∈ TrigMap.getD [("m", [5])] n →
        cb ∉ TrigMap.getD ([] : TrigMap) n →
        PSComponent.trigger ⟨[], [], false⟩ n args = .ok (r2, evs) →
          Event.invoke cb args ∉ evs) :=
  ⟨⟨rfl, by decide, by decide⟩,
   C1_placeholder_subscription_forwarding ⟨[("m", [7])], [("m", [5])]⟩
     ⟨[], [], false⟩ rfl (by decide) (by decide)⟩

/-- C6 counterexample: the claim says a second finalize on the same
Placeholder raises a fatal error, but `PubSubProxy.finalize` has no guard:
after a first finalize (which clears the buffers), a second finalize call on
the same Placeholder returns successfully instead of raising. -/
theorem C6_counterexample :
    PubSubProxy.finalize ⟨[("m", [7])], [("m", [5])]⟩ ⟨[], [], false⟩ =
      .ok (⟨[], []⟩, ⟨[("m", [7])], [("m", [5])], false⟩) ∧
    PubSubProxy.finalize ⟨[], []⟩ ⟨[("m", [7])], [("m", [5])], false⟩ =
      .ok (⟨[], []⟩, ⟨[("m", [7])], [("m", [5])], false⟩) :=
  ⟨rfl, rfl⟩

/-- C6 (amended): calling finalize a second time on a Placeholder is not an
error: the Placeholder is never sealed, and since the first finalize cleared
both buffer maps, a second finalize (onto any handle) forwards nothing,
succeeds, and leaves that handle unchanged. -/
theorem C6_second_finalize_is_noop (p : PubSubProxy) (t t2 : PSComponent)
    (r : PubSubProxy × PSComponent) (h : p.finalize t = .ok r) :
    r.1.finalize t2 = .ok (⟨[], []⟩, t2) := by
  have hr : r.1 = ⟨[], []⟩ := by
    unfold PubSubProxy.finalize at h
    cases hs : PSComponent.subscribeAll p.subscriptions
        (PSComponent.relayAll p.promises t) with
    | ok t' =>
        rw [hs] at h
        have heq : (⟨⟨[], []⟩, t'⟩ : PubSubProxy × PSComponent) = r := by
          simpa [Except.map] using h
        rw [← heq]
    | error e =>
        rw [hs] at h
        simp [Except.map] at h
  rw [hr]
  rfl

theorem C6_second_finalize_is_noop_witness :
    (PubSubProxy.finalize ⟨[("a", [1])], [("b", [2])]⟩ ⟨[], [], false⟩ =
      .ok (⟨[], []⟩, ⟨[("a", [1])], [("b", [2])], false⟩)) ∧
    PubSubProxy.finalize ⟨[], []⟩ ⟨[], [], true⟩ = .ok (⟨[], []⟩, ⟨[], [], true⟩) :=
  ⟨by rfl,
   C6_second_finalize_is_noop ⟨[("a", [1])], [("b", [2])]⟩ ⟨[], [], false⟩
     ⟨[], [], true⟩ (⟨[], []⟩, ⟨[("a", [1])], [("b", [2])], false⟩) (by rfl)⟩

theorem PSComponent.ops_error_of_finalized {c : PSComponent} (h : c.finalized = true) :
    (∀ k cb, c.triggerSubscribe k cb = .error alreadyFinalized) ∧
    (∀ k cb, c.triggerUnsubscribe k cb = .error alreadyFinalized) ∧
    (∀ k wid, c.triggerPromise k wid = .error alreadyFinalized) ∧
    (∀ k args, c.trigger k args = .error alreadyFinalized) ∧
    (∀ t2, c.finalizeTriggers t2 = .error alreadyFinalized) := by
  refine ⟨?_, ?_, ?_, ?_, ?_⟩
  · intro k cb
    simp [PSComponent.triggerSubscribe, h]
  · intro k cb
    simp [PSComponent.triggerUnsubscribe, h]
  · intro k wid
    simp [PSComponent.triggerPromise, h]
  · intro k args
    simp [PSComponent.trigger, h]
  · intro t2
    simp [PSComponent.finalizeTriggers, h]

theorem PSComponent.finalizeTriggers_ok (c t : PSComponent)
    (hc : c.finalized = false) (ht : t.finalized = false) :
    ∃ t', c.finalizeTriggers t = .ok (⟨[], [], true⟩, t') ∧ t'.finalized = false := by
  have h0fin : (PSComponent.relayAll c.promises t).finalized = false := by
    unfold PSComponent.relayAll
    rw [PSComponent.relayList_finalized]
    exact ht
  obtain ⟨t', hrun, hfin, _, _, _, _⟩ :=
    PSComponent.subscribeList_ok (PSComponent.entryPairs c.subscriptions) h0fin
  refine ⟨t', ?_, hfin⟩
  unfold PSComponent.finalizeTriggers
  rw [if_neg (by rw [hc]; exact Bool.false_ne_true)]
  unfold PSComponent.subscribeAll
  rw [hrun]
  rfl

/-- C2 counterexample: writing a new handle into a global registry slot that
already holds a standardly registered real handle throws (the set trap calls
the absent `finalizeTriggers` method of the stored pubsubObject, a
TypeError), contradicting the claim that name reuse never raises. -/
theorem C2_counterexample :
    (GlobalWorld.gset ⟨fun _ => ⟨[], [], false⟩, [("a", .real 1 false)]⟩
        "a" 2 false).2 = some typeErrorFinalize := rfl

/-- C2 (amended): in the scoped registry, a name-reuse write completes
without error provided the owning parent (whose own finalizeTriggers runs)
and the incoming handle's component are not already finalized, and a
subsequent read of that name returns the newly stored handle; in the global
registry, a name-reuse write over a standardly registered handle raises the
method-missing TypeError and the slot keeps the previous handle. -/
theorem C2_name_reuse_amended :
    (∀ (w : ScopedWorld) (name : Name) (cid oldc : Nat),
      JsMap.lookup w.ps name = some (.real oldc) →
      (w.components w.parentId).finalized = false →
      (w.components cid).finalized = false →
      ∃ w', ScopedWorld.psSet w name cid = (w', none) ∧
        (ScopedWorld.psGet w' name).2 = Slot.real cid ∧
        (ScopedWorld.psGet w' name).1 = w') ∧
    (∀ (g : GlobalWorld) (name : Name) (cid oldc : Nat),
      JsMap.lookup g.slots name = some (.real oldc false) →
      GlobalWorld.gset g name cid false = (g, some typeErrorFinalize) ∧
        (GlobalWorld.gget g name).2 = GSlot.real oldc false) := by
  constructor
  · intro w name cid oldc h1 h2 h3
    obtain ⟨t', hft, hfin⟩ :=
      PSComponent.finalizeTriggers_ok (w.components w.parentId) (w.components cid) h2 h3
    have hset : ScopedWorld.psSet w name cid =
        ({ w with
            components := updateComp (updateComp w.components w.parentId ⟨[], [], true⟩) cid t',
            ps := JsMap.set w.ps name (.real cid) }, none) := by
      unfold ScopedWorld.psSet
      rw [h1]
      simp only [h2, Bool.false_eq_true, if_false, hft]
    refine ⟨_, hset, ?_, ?_⟩
    · show (ScopedWorld.psGet _ name).2 = Slot.real cid
      unfold ScopedWorld.psGet
      simp only [JsMap.lookup_set_self]
    · show (ScopedWorld.psGet _ name).1 = _
      unfold ScopedWorld.psGet
      simp only [JsMap.lookup_set_self]
  · intro g name cid oldc h4
    constructor
    · unfold GlobalWorld.gset
      rw [h4]
      rfl
    · unfold GlobalWorld.gget
      rw [h4]

theorem C2_name_reuse_amended_witness :
    (JsMap.lookup ([("child", Slot.real 1)] : List (Name × Slot)) "child" =
        some (.real 1) ∧
      ∃ w', ScopedWorld.psSet ⟨fun _ => ⟨[], [], false⟩, 0, [("child", .real 1)]⟩
          "child" 2 = (w', none) ∧
        (ScopedWorld.psGet w' "child").2 = Slot.real 2 ∧
        (ScopedWorld.psGet w' "child").1 = w') ∧
    (JsMap.lookup ([("a", GSlot.real 1 false)] : List (Name × GSlot)) "a" =
        some (.real 1 false) ∧
      GlobalWorld.gset ⟨fun _ => ⟨[], [], false⟩, [("a", .real 1 false)]⟩ "a" 2 false =
          (⟨fun _ => ⟨[], [], false⟩, [("a", .real 1 false)]⟩, some typeErrorFinalize) ∧
        (GlobalWorld.gget ⟨fun _ => ⟨[], [], false⟩, [("a", .real 1 false)]⟩ "a").2 =
          GSlot.real 1 false) :=
  ⟨⟨by rfl,
    C2_name_reuse_amended.1 ⟨fun _ => ⟨[], [], false⟩, 0, [("child", .real 1)]⟩
      "child" 2 1 (by rfl) (by rfl) (by rfl)⟩,
   ⟨by rfl,
    C2_name_reuse_amended.2 ⟨fun _ => ⟨[], [], false⟩, [("a", .real 1 false)]⟩
      "a" 2 1 (by rfl)⟩⟩

theorem ScopedWorld.psSet_sealed (w : ScopedWorld) (name2 : Name) (cid2 c2 : Nat)
    (hrep : JsMap.lookup w.ps name2 = some (.real c2))
    (hfin : (w.components w.parentId).finalized = true) :
    ScopedWorld.psSet w name2 cid2 = (w, some alreadyFinalized) := by
  unfold ScopedWorld.psSet
  rw [hrep]
  simp [hfin]

/-- C9: in the scoped registry, overwriting a slot holding a real handle runs
the PARENT component's own finalizeTriggers, which seals the parent: after
one successful name-reuse write, every subscribe, unsubscribe, promise
request, or fire on the parent raises "Already finalized.", and any further
name-reuse write into that parent's registry raises it too and changes
nothing. -/
theorem C9_scoped_reuse_seals_parent (w : ScopedWorld) (name : Name)
    (cid oldc : Nat)
    (h1 : JsMap.lookup w.ps name = some (.real oldc))
    (h2 : (w.components w.parentId).finalized = false)
    (h3 : (w.components cid).finalized = false)
    (h4 : cid ≠ w.parentId) :
    ∃ w', ScopedWorld.psSet w name cid = (w', none) ∧
      w'.parentId = w.parentId ∧
      (w'.components w.parentId).finalized = true ∧
      (∀ k cb, (w'.components w.parentId).triggerSubscribe k cb =
        .error alreadyFinalized) ∧
      (∀ k cb, (w'.components w.parentId).triggerUnsubscribe k cb =
        .error alreadyFinalized) ∧
      (∀ k wid, (w'.components w.parentId).triggerPromise k wid =
        .error alreadyFinalized) ∧
      (∀ k args, (w'.components w.parentId).trigger k args =
        .error alreadyFinalized) ∧
      (∀ name2 cid2 c2, JsMap.lookup w'.ps name2 = some (.real c2) →
        ScopedWorld.psSet w' name2 cid2 = (w', some alreadyFinalized)) := by
  obtain ⟨t', hft, hfin⟩ :=
    PSComponent.finalizeTriggers_ok (w.components w.parentId) (w.components cid) h2 h3
  set w' : ScopedWorld :=
    { w with
        components := updateComp (updateComp w.components w.parentId ⟨[], [], true⟩) cid t',
        ps := JsMap.set w.ps name (.real cid) } with hw'
  have hset : ScopedWorld.psSet w name cid = (w', none) := by
    unfold ScopedWorld.psSet
    rw [h1]
    simp only [h2, Bool.false_eq_true, if_false, hft]
  have hparent : w'.components w.parentId = ⟨[], [], true⟩ := by
    rw [hw']
    show updateComp (updateComp w.components w.parentId ⟨[], [], true⟩) cid t'
        w.parentId = _
    unfold updateComp
    rw [if_neg (fun hh => h4 hh.symm), if_pos rfl]
  have hsealed : (w'.components w.parentId).finalized = true := by
    rw [hparent]
  obtain ⟨hs1, hs2, hs3, hs4, _⟩ := PSComponent.ops_error_of_finalized hsealed
  refine ⟨w', hset, rfl, hsealed, hs1, hs2, hs3, hs4, ?_⟩
  intro name2 cid2 c2 hlook
  exact ScopedWorld.psSet_sealed w' name2 cid2 c2 hlook hsealed

theorem C9_scoped_reuse_seals_parent_witness :
    (JsMap.lookup ([("child", Slot.real 1)] : List (Name × Slot)) "child" =
        some (.real 1) ∧ (2 : Nat) ≠ (0 : Nat)) ∧
    ∃ w', ScopedWorld.psSet
        ⟨fun i => if i = 0 then ⟨[], [("x", [9])], false⟩ else ⟨[], [], false⟩, 0,
          [("child", .real 1)]⟩ "child" 2 = (w', none) ∧
      w'.parentId = 0 ∧
      (w'.components 0).finalized = true ∧
      (∀ k cb, (w'.components 0).triggerSubscribe k cb = .error alreadyFinalized) ∧
      (∀ k cb, (w'.components 0).triggerUnsubscribe k cb = .error alreadyFinalized) ∧
      (∀ k wid, (w'.components 0).triggerPromise k wid = .error alreadyFinalized) ∧
      (∀ k args, (w'.components 0).trigger k args = .error alreadyFinalized) ∧
      (∀ name2 cid2 c2, JsMap.lookup w'.ps name2 = some (.real c2) →
        ScopedWorld.psSet w' name2 cid2 = (w', some alreadyFinalized)) :=
  ⟨⟨by rfl, by decide⟩,
   C9_scoped_reuse_seals_parent
     ⟨fun i => if i = 0 then ⟨[], [("x", [9])], false⟩ else ⟨[], [], false⟩, 0,
       [("child", .real 1)]⟩ "child" 2 1 (by rfl) (by rfl) (by rfl) (by decide)⟩

/-- C8 counterexample: a well-formed linkage (a string name followed by a
global registry, the documented publish-to-globals shape) still throws when
the registration write hits a reused global slot, so "well-formed linkage
throws nothing" fails on the code. -/
theorem C8_counterexample :
    (construct [PropEntry.str "n",
      PropEntry.global ⟨fun _ => ⟨[], [], false⟩, [("n", .real 1 false)]⟩] 2).2 =
      some typeErrorFinalize := rfl

/-- C8 (amended): malformed linkage shapes (a registry followed by a
non-string id, or a string name followed by a second string) synchronously
produce the descriptive TypeError before any registration write (the prop
entries are returned unchanged); well-formed linkage raises no validation
error, and when every registration write lands in a fresh slot the
construction raises nothing at all — though a registration write may itself
raise (e.g. global name reuse), as the counterexample shows. -/
theorem C8_linkage_validation_amended :
    (∀ (p id : PropEntry) (rest : List PropEntry) (cid : Nat),
      p.isStr = false → id.isStr = false →
      construct (p :: id :: rest) cid = (p :: id :: rest, some idMustBeString)) ∧
    (∀ (a b : String) (rest : List PropEntry) (cid : Nat),
      construct (.str a :: .str b :: rest) cid =
        (.str a :: .str b :: rest, some idCannotBeString)) ∧
    (∀ (w : ScopedWorld) (g : GlobalWorld) (s : String) (cid : Nat),
      JsMap.lookup w.ps s = none → JsMap.lookup g.slots s = none →
      (construct [.scoped w, .str s, .global g] cid).2 = none) := by
  refine ⟨?_, ?_, ?_⟩
  · intro p id rest cid hp hid
    cases p <;> cases id <;> simp_all [construct, PropEntry.isStr]
  · intro a b rest cid
    rfl
  · intro w g s cid hw hg
    have hps : ScopedWorld.psSet w s cid =
        ({ w with ps := JsMap.set w.ps s (.real cid) }, none) := by
      unfold ScopedWorld.psSet
      rw [hw]
    have hgs : GlobalWorld.gset g s cid false =
        ({ g with slots := JsMap.set g.slots s (.real cid false) }, none) := by
      unfold GlobalWorld.gset
      rw [hg]
    simp [construct, writeEntry, writeAll, hps, hgs]

theorem C8_linkage_validation_amended_witness :
    ((PropEntry.undef.isStr = false ∧ PropEntry.undef.isStr = false ∧
      construct [PropEntry.undef, PropEntry.undef] 0 =
        ([PropEntry.undef, PropEntry.undef], some idMustBeString)) ∧
     construct [PropEntry.str "a", PropEntry.str "b"] 0 =
        ([PropEntry.str "a", PropEntry.str "b"], some idCannotBeString)) ∧
    (JsMap.lookup ([] : List (Name × Slot)) "s" = none ∧
     JsMap.lookup ([] : List (Name × GSlot)) "s" = none ∧
     (construct [.scoped ⟨fun _ => ⟨[], [], false⟩, 0, []⟩, .str "s",
        .global ⟨fun _ => ⟨[], [], false⟩, []⟩] 1).2 = none) :=
  ⟨⟨⟨rfl, rfl,
     C8_linkage_validation_amended.1 PropEntry.undef PropEntry.undef [] 0 rfl rfl⟩,
    C8_linkage_validation_amended.2.1 "a" "b" [] 0⟩,
   ⟨rfl, rfl,
    C8_linkage_validation_amended.2.2 ⟨fun _ => ⟨[], [], false⟩, 0, []⟩
      ⟨fun _ => ⟨[], [], false⟩, []⟩ "s" 1 rfl rfl⟩⟩

theorem TrigMap.getD_erase_self (m : TrigMap) (k : Name) :
    TrigMap.getD (JsMap.erase m k) k = [] := by
  unfold TrigMap.getD
  rw [JsMap.lookup_erase_self]
  rfl

theorem TrigMap.getD_erase_ne (m : TrigMap) (k k' : Name) (h : k' ≠ k) :
    TrigMap.getD (JsMap.erase m k) k' = TrigMap.getD m k' := by
  unfold TrigMap.getD
  rw [JsMap.lookup_erase_ne _ _ _ h]

theorem SetList.count_add_ne {s : List Nat} {x y : Nat} (h : x ≠ y) :
    (SetList.add s y).count x = s.count x := by
  unfold SetList.add
  by_cases hy : y ∈ s
  · simp [hy]
  · simp [hy, List.count_append, List.count_singleton, h]

theorem SetList.mem_foldl_add {l : List Nat} {s : List Nat} {y : Nat} :
    y ∈ l.foldl SetList.add s ↔ y ∈ s ∨ y ∈ l :=
  SetList.foldl_add_mem l s y

theorem resolvesOf_append (wid : Nat) (e1 e2 : List Event) :
    resolvesOf wid (e1 ++ e2) = resolvesOf wid e1 ++ resolvesOf wid e2 := by
  unfold resolvesOf
  rw [List.filterMap_append]

theorem resolvesOf_nil (wid : Nat) : resolvesOf wid [] = [] := rfl

theorem resolvesOf_map_invoke (wid : Nat) (cbs : List Nat) (args : Args) :
    resolvesOf wid (cbs.map (Event.invoke · args)) = [] := by
  unfold resolvesOf
  rw [List.filterMap_map]
  apply List.filterMap_eq_nil_iff.mpr
  intro x _
  rfl

theorem resolvesOf_map_resolve (wid : Nat) (ws : List Nat) (args : Args) :
    resolvesOf wid (ws.map (Event.resolve · args)) =
      List.replicate (ws.count wid) args := by
  induction ws with
  | nil => rfl
  | cons x rest ih =>
      unfold resolvesOf at ih ⊢
      rw [List.map_cons, List.filterMap_cons]
      by_cases hx : x = wid
      · subst hx
        simp [ih, List.replicate_succ]
      · simp only [if_neg hx]
        rw [ih, List.count_cons_of_ne (fun hh => hx hh.symm)]

theorem runOps_append (l1 l2 : List ROp) :
    ∀ c : PSComponent, runOps c (l1 ++ l2) =
      (runOps c l1).bind (fun r1 =>
        (runOps r1.1 l2).map (fun r2 => (r2.1, r1.2 ++ r2.2))) := by
  induction l1 with
  | nil =>
      intro c
      show runOps c l2 = (runOps c l2).map (fun r2 => (r2.1, [] ++ r2.2))
      cases h : runOps c l2 with
      | ok r => simp [Except.map]
      | error e => simp [Except.map]
  | cons op rest ih =>
      intro c
      cases op with
      | sub k cb =>
          show (c.triggerSubscribe k cb).bind _ = ((c.triggerSubscribe k cb).bind _).bind _
          cases c.triggerSubscribe k cb with
          | ok c1 => simpa using ih c1
          | error e => rfl
      | unsub k cb =>
          show (c.triggerUnsubscribe k cb).bind _ = ((c.triggerUnsubscribe k cb).bind _).bind _
          cases c.triggerUnsubscribe k cb with
          | ok c1 => simpa using ih c1
          | error e => rfl
      | wait k w =>
          show (c.triggerPromise k w).bind _ = ((c.triggerPromise k w).bind _).bind _
          cases c.triggerPromise k w with
          | ok c1 => simpa using ih c1
          | error e => rfl
      | fire k args =>
          show (c.trigger k args).bind _ = ((c.trigger k args).bind _).bind _
          cases c.trigger k args with
          | ok r =>
              show Except.map _ (runOps r.1 (rest ++ l2)) = _
              rw [ih r.1]
              cases h1 : runOps r.1 rest with
              | ok r1 =>
                  cases h2 : runOps r1.1 l2 with
                  | ok r2 => simp [h1, h2, Except.map, Except.bind, List.append_assoc]
                  | error e => simp [h1, h2, Except.map, Except.bind]
              | error e => simp [h1, Except.map, Except.bind]
          | error e => rfl

theorem PSComponent.triggerPromise_ok {c : PSComponent} (h : c.finalized = false)
    (k : Name) (w : Nat) :
    c.triggerPromise k w =
      .ok { c with promises := TrigMap.addTo c.promises k w } := by
  simp [PSComponent.triggerPromise, h]

theorem PSComponent.triggerUnsubscribe_ok {c : PSComponent} (h : c.finalized = false)
    (k : Name) (cb : Nat) :
    c.triggerUnsubscribe k cb =
      .ok { c with subscriptions :=
        (if SetList.del (TrigMap.getD c.subscriptions k) cb = [] then JsMap.erase c.subscriptions k else JsMap.set c.subscriptions k (SetList.del (TrigMap.getD c.subscriptions k) cb)) } := by
  simp [PSComponent.triggerUnsubscribe, h]

theorem PSComponent.trigger_ok {c : PSComponent} (h : c.finalized = false)
    (k : Name) (args : Args) :
    c.trigger k args =
      .ok ({ c with promises := JsMap.erase c.promises k, subscriptions := TrigMap.ensure c.subscriptions k },
           (TrigMap.getD c.promises k).map (Event.resolve · args) ++
           (TrigMap.getD c.subscriptions k).map (Event.invoke · args)) := by
  simp [PSComponent.trigger, h]

theorem runOps_fresh_waiter (wid : Nat) (ops : List ROp) :
    ∀ c : PSComponent, c.finalized = false →
    (∀ k, wid ∉ TrigMap.getD c.promises k) →
    (∀ op ∈ ops, op.addsWaiter wid = false) →
    ∃ c' evs, runOps c ops = .ok (c', evs) ∧ c'.finalized = false ∧
      (∀ k, wid ∉ TrigMap.getD c'.promises k) ∧ resolvesOf wid evs = [] := by
  induction ops with
  | nil =>
      intro c hf hfresh _
      exact ⟨c, [], rfl, hf, hfresh, rfl⟩
  | cons op rest ih =>
      intro c hf hfresh hops
      have hoprest : ∀ o ∈ rest, ROp.addsWaiter o wid = false :=
        fun o ho => hops o (List.mem_cons_of_mem _ ho)
      cases op with
      | sub k cb =>
          obtain ⟨c', evs, hrun, hf', hfresh', hres⟩ :=
            ih { c with subscriptions := TrigMap.addTo c.subscriptions k cb }
              hf hfresh hoprest
          refine ⟨c', evs, ?_, hf', hfresh', hres⟩
          show (c.triggerSubscribe k cb).bind (fun c1 => runOps c1 rest) = _
          rw [PSComponent.triggerSubscribe_ok hf k cb]
          exact hrun
      | unsub k cb =>
          obtain ⟨c', evs, hrun, hf', hfresh', hres⟩ :=
            ih { c with subscriptions :=
              (if SetList.del (TrigMap.getD c.subscriptions k) cb = [] then JsMap.erase c.subscriptions k else JsMap.set c.subscriptions k (SetList.del (TrigMap.getD c.subscriptions k) cb)) }
              hf hfresh hoprest
          refine ⟨c', evs, ?_, hf', hfresh', hres⟩
          show (c.triggerUnsubscribe k cb).bind (fun c1 => runOps c1 rest) = _
          rw [PSComponent.triggerUnsubscribe_ok hf k cb]
          exact hrun
      | wait k w =>
          have hw : w ≠ wid := by
            have := hops _ (List.mem_cons_self _ _)
            simpa [ROp.addsWaiter] using this
          have hfresh1 : ∀ k', wid ∉
              TrigMap.getD (TrigMap.addTo c.promises k w) k' := by
            intro k'
            by_cases hk : k' = k
            · subst hk
              rw [TrigMap.getD_addTo_self]
              intro hmem
              rcases SetList.mem_add.mp hmem with hmem' | hmem'
              · exact hfresh _ hmem'
              · exact hw hmem'.symm
            · rw [TrigMap.getD_addTo_ne _ _ _ _ hk]
              exact hfresh _
          obtain ⟨c', evs, hrun, hf', hfresh', hres⟩ :=
            ih { c with promises := TrigMap.addTo c.promises k w }
              hf hfresh1 hoprest
          refine ⟨c', evs, ?_, hf', hfresh', hres⟩
          show (c.triggerPromise k w).bind (fun c1 => runOps c1 rest) = _
          rw [PSComponent.triggerPromise_ok hf k w]
          exact hrun
      | fire k args =>
          have hfresh1 : ∀ k', wid ∉
              TrigMap.getD (JsMap.erase c.promises k) k' := by
            intro k'
            by_cases hk : k' = k
            · subst hk
              rw [TrigMap.getD_erase_self]
              exact List.not_mem_nil wid
            · rw [TrigMap.getD_erase_ne _ _ _ hk]
              exact hfresh _
          obtain ⟨c', evs, hrun, hf', hfresh', hres⟩ :=
            ih { c with promises := JsMap.erase c.promises k,
                        subscriptions := TrigMap.ensure c.subscriptions k }
              hf hfresh1 hoprest
          refine ⟨c', (TrigMap.getD c.promises k).map (Event.resolve · args) ++
            (TrigMap.getD c.subscriptions k).map (Event.invoke · args) ++ evs,
            ?_, hf', hfresh', ?_⟩
          · show (c.trigger k args).bind _ = _
            rw [PSComponent.trigger_ok hf k args]
            show Except.map _ (runOps _ rest) = _
            rw [hrun]
            rfl
          · rw [resolvesOf_append, resolvesOf_append, hres]
            rw [resolvesOf_map_invoke]
            rw [resolvesOf_map_resolve]
            rw [List.count_eq_zero_of_not_mem (hfresh k)]
            rfl

theorem runOps_keeps_waiter (wid : Nat) (nm : Name) (ops : List ROp) :
    ∀ c : PSComponent, c.finalized = false →
    (TrigMap.getD c.promises nm).count wid = 1 →
    (∀ k, k ≠ nm → wid ∉ TrigMap.getD c.promises k) →
    (∀ op ∈ ops, op.addsWaiter wid = false) →
    (∀ op ∈ ops, op.isFireOf nm = false) →
    ∃ c' evs, runOps c ops = .ok (c', evs) ∧ c'.finalized = false ∧
      (TrigMap.getD c'.promises nm).count wid = 1 ∧
      (∀ k, k ≠ nm → wid ∉ TrigMap.getD c'.promises k) ∧
      resolvesOf wid evs = [] := by
  induction ops with
  | nil =>
      intro c hf hcnt hother _ _
      exact ⟨c, [], rfl, hf, hcnt, hother, rfl⟩
  | cons op rest ih =>
      intro c hf hcnt hother hops hfires
      have hoprest : ∀ o ∈ rest, ROp.addsWaiter o wid = false :=
        fun o ho => hops o (List.mem_cons_of_mem _ ho)
      have hfirerest : ∀ o ∈ rest, ROp.isFireOf o nm = false :=
        fun o ho => hfires o (List.mem_cons_of_mem _ ho)
      cases op with
      | sub k cb =>
          obtain ⟨c', evs, hrun, hf', hcnt', hother', hres⟩ :=
            ih { c with subscriptions := TrigMap.addTo c.subscriptions k cb }
              hf hcnt hother hoprest hfirerest
          refine ⟨c', evs, ?_, hf', hcnt', hother', hres⟩
          show (c.triggerSubscribe k cb).bind (fun c1 => runOps c1 rest) = _
          rw [PSComponent.triggerSubscribe_ok hf k cb]
          exact hrun
      | unsub k cb =>
          obtain ⟨c', evs, hrun, hf', hcnt', hother', hres⟩ :=
            ih { c with subscriptions :=
              (if SetList.del (TrigMap.getD c.subscriptions k) cb = [] then JsMap.erase c.subscriptions k else JsMap.set c.subscriptions k (SetList.del (TrigMap.getD c.subscriptions k) cb)) }
              hf hcnt hother hoprest hfirerest
          refine ⟨c', evs, ?_, hf', hcnt', hother', hres⟩
          show (c.triggerUnsubscribe k cb).bind (fun c1 => runOps c1 rest) = _
          rw [PSComponent.triggerUnsubscribe_ok hf k cb]
          exact hrun
      | wait k w =>
          have hw : w ≠ wid := by
            have := hops _ (List.mem_cons_self _ _)
            simpa [ROp.addsWaiter] using this
          have hcnt1 : (TrigMap.getD (TrigMap.addTo c.promises k w) nm).count wid = 1 := by
            by_cases hk : nm = k
            · subst hk
              rw [TrigMap.getD_addTo_self]
              rw [SetList.count_add_ne (fun hh => hw hh.symm)]
              exact hcnt
            · rw [TrigMap.getD_addTo_ne _ _ _ _ hk]
              exact hcnt
          have hother1 : ∀ k', k' ≠ nm →
              wid ∉ TrigMap.getD (TrigMap.addTo c.promises k w) k' := by
            intro k' hk'
            by_cases hkk : k' = k
            · subst hkk
              rw [TrigMap.getD_addTo_self]
              intro hmem
              rcases SetList.mem_add.mp hmem with hmem' | hmem'
              · exact hother _ hk' hmem'
              · exact hw hmem'.symm
            · rw [TrigMap.getD_addTo_ne _ _ _ _ hkk]
              exact hother _ hk'
          obtain ⟨c', evs, hrun, hf', hcnt', hother', hres⟩ :=
            ih { c with promises := TrigMap.addTo c.promises k w }
              hf hcnt1 hother1 hoprest hfirerest
          refine ⟨c', evs, ?_, hf', hcnt', hother', hres⟩
          show (c.triggerPromise k w).bind (fun c1 => runOps c1 rest) = _
          rw [PSComponent.triggerPromise_ok hf k w]
          exact hrun
      | fire k args =>
          have hknm : k ≠ nm := by
            have := hfires _ (List.mem_cons_self _ _)
            simpa [ROp.isFireOf] using this
          have hcnt1 : (TrigMap.getD (JsMap.erase c.promises k) nm).count wid = 1 := by
            rw [TrigMap.getD_erase_ne _ _ _ (fun hh => hknm hh.symm)]
            exact hcnt
          have hother1 : ∀ k', k' ≠ nm →
              wid ∉ TrigMap.getD (JsMap.erase c.promises k) k' := by
            intro k' hk'
            by_cases hkk : k' = k
            · subst hkk
              rw [TrigMap.getD_erase_self]
              exact List.not_mem_nil wid
            · rw [TrigMap.getD_erase_ne _ _ _ hkk]
              exact hother _ hk'
          obtain ⟨c', evs, hrun, hf', hcnt', hother', hres⟩ :=
            ih { c with promises := JsMap.erase c.promises k,
                        subscriptions := TrigMap.ensure c.subscriptions k }
              hf hcnt1 hother1 hoprest hfirerest
          refine ⟨c', (TrigMap.getD c.promises k).map (Event.resolve · args) ++
            (TrigMap.getD c.subscriptions k).map (Event.invoke · args) ++ evs,
            ?_, hf', hcnt', hother', ?_⟩
          · show (c.trigger k args).bind _ = _
            rw [PSComponent.trigger_ok hf k args]
            show Except.map _ (runOps _ rest) = _
            rw [hrun]
            rfl
          · rw [resolvesOf_append, resolvesOf_append, hres]
            rw [resolvesOf_map_invoke]
            rw [resolvesOf_map_resolve]
            rw [List.count_eq_zero_of_not_mem (hother k hknm)]
            rfl

theorem runOps_waits (nm : Name) (ws : List Nat) :
    ∀ c : PSComponent, c.finalized = false →
    ∃ c', runOps c (ws.map (ROp.wait nm)) = .ok (c', []) ∧
      c'.finalized = false ∧
      TrigMap.getD c'.promises nm =
        ws.foldl SetList.add (TrigMap.getD c.promises nm) ∧
      c'.subscriptions = c.subscriptions := by
  induction ws with
  | nil =>
      intro c hf
      exact ⟨c, rfl, hf, rfl, rfl⟩
  | cons x rest ih =>
      intro c hf
      obtain ⟨c', hrun, hf', hget, hsubs⟩ :=
        ih { c with promises := TrigMap.addTo c.promises nm x } hf
      refine ⟨c', ?_, hf', ?_, hsubs⟩
      · show (c.triggerPromise nm x).bind (fun c1 => runOps c1 (rest.map (ROp.wait nm))) = _
        rw [PSComponent.triggerPromise_ok hf nm x]
        exact hrun
      · rw [hget]
        show _ = List.foldl SetList.add (TrigMap.getD c.promises nm) (x :: rest)
        rw [List.foldl_cons]
        rw [TrigMap.getD_addTo_self]

/-- C3: a waiter resolves exactly once, with the args of the first fire of
its name that occurs strictly after the wait was created — never with args
of an earlier fire; and any number of waitNext calls on the same name
followed by a single fire all resolve independently with that fire's args,
after which the pending-waiter set for that name is empty. -/
theorem C3_waiter_semantics :
    (∀ (s : PSComponent) (nm : Name) (wid : Nat) (a : Args)
        (ops0 pre post : List ROp),
      s.finalized = false →
      (∀ k, wid ∉ TrigMap.getD s.promises k) →
      (∀ op ∈ ops0, op.addsWaiter wid = false) →
      (∀ op ∈ pre, op.addsWaiter wid = false) →
      (∀ op ∈ post, op.addsWaiter wid = false) →
      (∀ op ∈ pre, op.isFireOf nm = false) →
      ∃ s' evs, runOps s
          (ops0 ++ ROp.wait nm wid :: (pre ++ ROp.fire nm a :: post)) =
          .ok (s', evs) ∧
        resolvesOf wid evs = [a]) ∧
    (∀ (s : PSComponent) (nm : Name) (ws : List Nat) (a : Args),
      s.finalized = false → mapWF s.promises →
      ∃ s' evs, runOps s (ws.map (ROp.wait nm) ++ [ROp.fire nm a]) =
          .ok (s', evs) ∧
        (∀ x ∈ ws, resolvesOf x evs = [a]) ∧
        JsMap.lookup s'.promises nm = none) := by
  constructor
  · intro s nm wid a ops0 pre post hsf hfresh hops0 hpre hpost hprefire
    obtain ⟨c1, e1, hrun1, hf1, hfresh1, hres1⟩ :=
      runOps_fresh_waiter wid ops0 s hsf hfresh hops0
    have hcnt2 : (TrigMap.getD
        (TrigMap.addTo c1.promises nm wid) nm).count wid = 1 := by
      rw [TrigMap.getD_addTo_self]
      exact SetList.count_add_of_not_mem (hfresh1 nm)
    have hother2 : ∀ k, k ≠ nm → wid ∉
        TrigMap.getD (TrigMap.addTo c1.promises nm wid) k := by
      intro k hk
      rw [TrigMap.getD_addTo_ne _ _ _ _ hk]
      exact hfresh1 _
    obtain ⟨c3, e2, hrun2, hf3, hcnt3, hother3, hres2⟩ :=
      runOps_keeps_waiter wid nm pre
        { c1 with promises := TrigMap.addTo c1.promises nm wid }
        hf1 hcnt2 hother2 hpre hprefire
    have hfresh4 : ∀ k, wid ∉ TrigMap.getD
        (JsMap.erase c3.promises nm) k := by
      intro k
      by_cases hk : k = nm
      · subst hk
        rw [TrigMap.getD_erase_self]
        exact List.not_mem_nil wid
      · rw [TrigMap.getD_erase_ne _ _ _ hk]
        exact hother3 _ hk
    obtain ⟨c5, e3, hrun3, hf5, hfresh5, hres3⟩ :=
      runOps_fresh_waiter wid post
        { c3 with promises := JsMap.erase c3.promises nm,
                  subscriptions := TrigMap.ensure c3.subscriptions nm }
        hf3 hfresh4 hpost
    refine ⟨c5, e1 ++ (e2 ++
      (((TrigMap.getD c3.promises nm).map (Event.resolve · a) ++
        (TrigMap.getD c3.subscriptions nm).map (Event.invoke · a)) ++ e3)), ?_, ?_⟩
    · rw [runOps_append, hrun1]
      show Except.map _ (runOps c1 (ROp.wait nm wid :: (pre ++ ROp.fire nm a :: post))) = _
      show Except.map _ ((c1.triggerPromise nm wid).bind _) = _
      rw [PSComponent.triggerPromise_ok hf1 nm wid]
      show Except.map _ (runOps _ (pre ++ ROp.fire nm a :: post)) = _
      rw [runOps_append, hrun2]
      show Except.map _ (Except.map _ (runOps c3 (ROp.fire nm a :: post))) = _
      show Except.map _ (Except.map _ ((c3.trigger nm a).bind _)) = _
      rw [PSComponent.trigger_ok hf3 nm a]
      show Except.map _ (Except.map _ (Except.map _ (runOps _ post))) = _
      rw [hrun3]
      rfl
    · rw [resolvesOf_append, resolvesOf_append, resolvesOf_append,
        resolvesOf_append, hres1, hres2, hres3]
      rw [resolvesOf_map_invoke, resolvesOf_map_resolve, hcnt3]
      rfl
  · intro s nm ws a hsf hwf
    obtain ⟨c1, hrun1, hf1, hget1, _⟩ := runOps_waits nm ws s hsf
    refine ⟨{ c1 with promises := JsMap.erase c1.promises nm, subscriptions := TrigMap.ensure c1.subscriptions nm },
      (TrigMap.getD c1.promises nm).map (Event.resolve · a) ++
        (TrigMap.getD c1.subscriptions nm).map (Event.invoke · a), ?_, ?_, ?_⟩
    · rw [runOps_append, hrun1]
      show Except.map _ ((c1.trigger nm a).bind _) = _
      rw [PSComponent.trigger_ok hf1 nm a]
      simp [Except.map, Except.bind, runOps]
    · intro x hx
      rw [resolvesOf_append, resolvesOf_map_invoke, resolvesOf_map_resolve]
      rw [List.append_nil]
      have hmem : x ∈ TrigMap.getD c1.promises nm := by
        rw [hget1]
        exact (SetList.foldl_add_mem _ _ _).mpr (Or.inr hx)
      have hnodup : (TrigMap.getD c1.promises nm).Nodup := by
        rw [hget1]
        exact SetList.foldl_add_nodup _ (mapWF_getD_nodup hwf)
      rw [List.count_eq_one_of_mem hnodup hmem]
      rfl
    · exact JsMap.lookup_erase_self _ _

theorem C3_waiter_semantics_witness :
    (((⟨[], [], false⟩ : PSComponent).finalized = false ∧
      (∀ k, 1 ∉ TrigMap.getD ([] : TrigMap) k) ∧
      (∀ op ∈ [ROp.fire "m" [9]], ROp.addsWaiter op 1 = false) ∧
      (∀ op ∈ [ROp.sub "m" 7], ROp.addsWaiter op 1 = false) ∧
      (∀ op ∈ [ROp.fire "m" [6]], ROp.addsWaiter op 1 = false) ∧
      (∀ op ∈ [ROp.sub "m" 7], ROp.isFireOf op "m" = false) ∧
      ∃ s' evs, runOps ⟨[], [], false⟩
          ([ROp.fire "m" [9]] ++ ROp.wait "m" 1 ::
            ([ROp.sub "m" 7] ++ ROp.fire "m" [4] :: [ROp.fire "m" [6]])) =
          .ok (s', evs) ∧
        resolvesOf 1 evs = [[4]]) ∧
     (mapWF ([] : TrigMap) ∧
      ∃ s' evs, runOps ⟨[], [], false⟩
          ([1, 2, 3].map (ROp.wait "m") ++ [ROp.fire "m" [5]]) = .ok (s', evs) ∧
        (∀ x ∈ [1, 2, 3], resolvesOf x evs = [[5]]) ∧
        JsMap.lookup s'.promises "m" = none)) :=
  ⟨⟨rfl, fun k => by simp [TrigMap.getD, JsMap.lookup_nil], by decide, by decide,
    by decide, by decide,
    C3_waiter_semantics.1 ⟨[], [], false⟩ "m" 1 [4]
      [ROp.fire "m" [9]] [ROp.sub "m" 7] [ROp.fire "m" [6]] rfl
      (fun k => by simp [TrigMap.getD, JsMap.lookup_nil])
      (by decide) (by decide) (by decide) (by decide)⟩,
   ⟨by decide,
    C3_waiter_semantics.2 ⟨[], [], false⟩ "m" [1, 2, 3] [5] rfl (by decide)⟩⟩

theorem PSComponent.entryPairs_map_snd (m : TrigMap) :
    (PSComponent.entryPairs m).map Prod.snd = TrigMap.allIds m := by
  induction m with
  | nil => rfl
  | cons e rest ih =>
      unfold PSComponent.entryPairs at ih ⊢
      rw [List.flatMap_cons, List.map_append, ih, TrigMap.allIds_cons]
      congr 1
      rw [List.map_map]
      simp [Function.comp]

theorem PSComponent.triggerSubscribe_ok_inv {c c1 : PSComponent} {k : Name} {cb : Nat}
    (h : c.triggerSubscribe k cb = .ok c1) :
    c1 = { c with subscriptions := TrigMap.addTo c.subscriptions k cb } ∧
      c.finalized = false := by
  unfold PSComponent.triggerSubscribe at h
  by_cases hf : c.finalized = true
  · rw [if_pos hf] at h
    exact absurd h (by simp)
  · rw [if_neg hf] at h
    exact ⟨(Except.ok.inj h).symm, eq_false_of_ne_true hf⟩

theorem PSComponent.subscribeList_mem (l : List (Name × Nat)) :
    ∀ t t' : PSComponent, PSComponent.subscribeList t l = .ok t' →
    (∀ y, y ∈ TrigMap.allIds t'.subscriptions →
      y ∈ TrigMap.allIds t.subscriptions ∨ y ∈ l.map Prod.snd) ∧
    t'.promises = t.promises ∧ t'.finalized = t.finalized := by
  induction l with
  | nil =>
      intro t t' h
      obtain rfl : t = t' := Except.ok.inj h
      exact ⟨fun y hy => Or.inl hy, rfl, rfl⟩
  | cons e rest ih =>
      intro t t' h
      rw [PSComponent.subscribeList_cons] at h
      cases hstep : t.triggerSubscribe e.1 e.2 with
      | error msg => rw [hstep] at h; exact absurd h (by simp [Except.bind])
      | ok t1 =>
          rw [hstep] at h
          obtain ⟨ht1, _⟩ := PSComponent.triggerSubscribe_ok_inv hstep
          have h' : PSComponent.subscribeList t1 rest = .ok t' := h
          obtain ⟨hmem, hprom, hfin⟩ := ih t1 t' h'
          refine ⟨?_, ?_, ?_⟩
          · intro y hy
            rcases hmem y hy with hy' | hy'
            · rw [ht1] at hy'
              rcases TrigMap.mem_allIds_addTo hy' with hy'' | hy''
              · exact Or.inl hy''
              · exact Or.inr (by simp [hy''])
            · exact Or.inr (by simp [hy'])
          · rw [hprom, ht1]
          · rw [hfin, ht1]

theorem PubSubProxy.finalize_mem {p : PubSubProxy} {t : PSComponent}
    {r : PubSubProxy × PSComponent} (h : p.finalize t = .ok r) :
    (∀ y, y ∈ TrigMap.allIds r.2.subscriptions →
      y ∈ TrigMap.allIds t.subscriptions ∨ y ∈ TrigMap.allIds p.subscriptions) ∧
    (∀ y, y ∈ TrigMap.allIds r.2.promises →
      y ∈ TrigMap.allIds t.promises ∨ y ∈ TrigMap.allIds p.promises) ∧
    r.2.finalized = t.finalized := by
  unfold PubSubProxy.finalize at h
  cases hs : PSComponent.subscribeAll p.subscriptions
      (PSComponent.relayAll p.promises t) with
  | error e => rw [hs] at h; exact absurd h (by simp [Except.map])
  | ok t' =>
      rw [hs] at h
      have hr : r.2 = t' := by
        have heq : (⟨⟨[], []⟩, t'⟩ : PubSubProxy × PSComponent) = r := by
          simpa [Except.map] using h
        rw [← heq]
      unfold PSComponent.subscribeAll at hs
      obtain ⟨hmem, hprom, hfin⟩ := PSComponent.subscribeList_mem _ _ _ hs
      have hsubs0 : (PSComponent.relayAll p.promises t).subscriptions =
          t.subscriptions := by
        unfold PSComponent.relayAll
        rw [PSComponent.relayList_subscriptions]
      have hfin0 : (PSComponent.relayAll p.promises t).finalized = t.finalized := by
        unfold PSComponent.relayAll
        rw [PSComponent.relayList_finalized]
      refine ⟨?_, ?_, ?_⟩
      · intro y hy
        rw [hr] at hy
        rcases hmem y hy with hy' | hy'
        · rw [hsubs0] at hy'
          exact Or.inl hy'
        · rw [PSComponent.entryPairs_map_snd] at hy'
          exact Or.inr hy'
      · intro y hy
        rw [hr, hprom] at hy
        rcases PSComponent.mem_relayList_promises _ t y hy with hy' | hy'
        · exact Or.inl hy'
        · rw [PSComponent.entryPairs_map_snd] at hy'
          exact Or.inr hy'
      · rw [hr, hfin, hfin0]

theorem PSComponent.finalizeTriggers_mem {c t : PSComponent}
    {r : PSComponent × PSComponent} (h : c.finalizeTriggers t = .ok r) :
    r.1 = ⟨[], [], true⟩ ∧
    (∀ y, y ∈ TrigMap.allIds r.2.subscriptions →
      y ∈ TrigMap.allIds t.subscriptions ∨ y ∈ TrigMap.allIds c.subscriptions) ∧
    (∀ y, y ∈ TrigMap.allIds r.2.promises →
      y ∈ TrigMap.allIds t.promises ∨ y ∈ TrigMap.allIds c.promises) ∧
    r.2.finalized = t.finalized := by
  unfold PSComponent.finalizeTriggers at h
  by_cases hc : c.finalized = true
  · rw [if_pos hc] at h
    exact absurd h (by simp)
  · rw [if_neg hc] at h
    cases hs : PSComponent.subscribeAll c.subscriptions
        (PSComponent.relayAll c.promises t) with
    | error e => rw [hs] at h; exact absurd h (by simp [Except.map])
    | ok t' =>
        rw [hs] at h
        have hr : r = (⟨[], [], true⟩, t') := by
          have heq : (⟨⟨[], [], true⟩, t'⟩ : PSComponent × PSComponent) = r := by
            simpa [Except.map] using h
          rw [← heq]
        unfold PSComponent.subscribeAll at hs
        obtain ⟨hmem, hprom, hfin⟩ := PSComponent.subscribeList_mem _ _ _ hs
        have hsubs0 : (PSComponent.relayAll c.promises t).subscriptions =
            t.subscriptions := by
          unfold PSComponent.relayAll
          rw [PSComponent.relayList_subscriptions]
        have hfin0 : (PSComponent.relayAll c.promises t).finalized = t.finalized := by
          unfold PSComponent.relayAll
          rw [PSComponent.relayList_finalized]
        rw [hr]
        refine ⟨rfl, ?_, ?_, ?_⟩
        · intro y hy
          rcases hmem y hy with hy' | hy'
          · rw [hsubs0] at hy'
            exact Or.inl hy'
          · rw [PSComponent.entryPairs_map_snd] at hy'
            exact Or.inr hy'
        · intro y hy
          rw [hprom] at hy
          rcases PSComponent.mem_relayList_promises _ t y hy with hy' | hy'
          · exact Or.inl hy'
          · rw [PSComponent.entryPairs_map_snd] at hy'
            exact Or.inr hy'
        · rw [hfin, hfin0]

theorem PSComponent.triggerPromise_ok_inv {c c1 : PSComponent} {k : Name} {w : Nat}
    (h : c.triggerPromise k w = .ok c1) :
    c1 = { c with promises := TrigMap.addTo c.promises k w } ∧
      c.finalized = false := by
  unfold PSComponent.triggerPromise at h
  by_cases hf : c.finalized = true
  · rw [if_pos hf] at h
    exact absurd h (by simp)
  · rw [if_neg hf] at h
    exact ⟨(Except.ok.inj h).symm, eq_false_of_ne_true hf⟩

theorem PSComponent.triggerUnsubscribe_ok_inv {c c1 : PSComponent} {k : Name}
    {cb : Nat} (h : c.triggerUnsubscribe k cb = .ok c1) :
    (∀ y, y ∈ TrigMap.allIds c1.subscriptions →
      y ∈ TrigMap.allIds c.subscriptions) ∧
    c1.promises = c.promises := by
  unfold PSComponent.triggerUnsubscribe at h
  by_cases hf : c.finalized = true
  · rw [if_pos hf] at h
    exact absurd h (by simp)
  · rw [if_neg hf] at h
    have hc1 := (Except.ok.inj h).symm
    constructor
    · intro y hy
      rw [hc1] at hy
      simp only at hy
      by_cases hd : SetList.del (TrigMap.getD c.subscriptions k) cb = []
      · rw [if_pos hd] at hy
        exact TrigMap.allIds_erase_subset hy
      · rw [if_neg hd] at hy
        rcases TrigMap.mem_allIds_set hy with hy' | hy'
        · exact hy'
        · exact TrigMap.mem_allIds_of_mem_getD (SetList.mem_del hy')
    · rw [hc1]

theorem PSComponent.trigger_ok_inv {c : PSComponent} {k : Name} {args : Args}
    {r : PSComponent × List Event} (h : c.trigger k args = .ok r) :
    c.finalized = false ∧
    r = ({ c with promises := JsMap.erase c.promises k, subscriptions := TrigMap.ensure c.subscriptions k },
         (TrigMap.getD c.promises k).map (Event.resolve · args) ++
         (TrigMap.getD c.subscriptions k).map (Event.invoke · args)) := by
  by_cases hf : c.finalized = true
  · unfold PSComponent.trigger at h
    rw [if_pos hf] at h
    exact absurd h (by simp)
  · have hf' := eq_false_of_ne_true hf
    rw [PSComponent.trigger_ok hf' k args] at h
    exact ⟨hf', (Except.ok.inj h).symm⟩

theorem PubSubProxy.mem_subs_triggerSubscribe {p : PubSubProxy} {k : Name}
    {c y : Nat} (h : y ∈ TrigMap.allIds (p.triggerSubscribe k c).subscriptions) :
    y ∈ TrigMap.allIds p.subscriptions ∨ y = c :=
  TrigMap.mem_allIds_addTo h

theorem PubSubProxy.mem_subs_triggerUnsubscribe {p : PubSubProxy} {k : Name}
    {c y : Nat} (h : y ∈ TrigMap.allIds (p.triggerUnsubscribe k c).subscriptions) :
    y ∈ TrigMap.allIds p.subscriptions := by
  unfold PubSubProxy.triggerUnsubscribe at h
  simp only at h
  by_cases hd : SetList.del (TrigMap.getD p.subscriptions k) c = []
  · rw [if_pos hd] at h
    exact TrigMap.allIds_erase_subset h
  · rw [if_neg hd] at h
    rcases TrigMap.mem_allIds_set h with h' | h'
    · exact h'
    · exact TrigMap.mem_allIds_of_mem_getD (SetList.mem_del h')

theorem PubSubProxy.mem_proms_asyncGet {p : PubSubProxy} {k : Name}
    {wi y : Nat} (h : y ∈ TrigMap.allIds (p.asyncGet k wi).promises) :
    y ∈ TrigMap.allIds p.promises ∨ y = wi :=
  TrigMap.mem_allIds_addTo h

theorem ScopedWorld.psGet_some {w : ScopedWorld} {n : Name} {s : Slot}
    (h : JsMap.lookup w.ps n = some s) : ScopedWorld.psGet w n = (w, s) := by
  unfold ScopedWorld.psGet
  rw [h]

theorem ScopedWorld.psGet_none {w : ScopedWorld} {n : Name}
    (h : JsMap.lookup w.ps n = none) :
    ScopedWorld.psGet w n =
      ({ w with ps := JsMap.set w.ps n (.proxy ⟨[], []⟩) }, .proxy ⟨[], []⟩) := by
  unfold ScopedWorld.psGet
  rw [h]

theorem ScopedWorld.psSet_none {w : ScopedWorld} {n : Name} {cid : Nat}
    (h : JsMap.lookup w.ps n = none) :
    ScopedWorld.psSet w n cid =
      ({ w with ps := JsMap.set w.ps n (.real cid) }, none) := by
  unfold ScopedWorld.psSet
  rw [h]

theorem ScopedWorld.psSet_proxy_ok {w : ScopedWorld} {n : Name} {cid : Nat}
    {p : PubSubProxy} {r : PubSubProxy × PSComponent}
    (hlook : JsMap.lookup w.ps n = some (.proxy p))
    (hfin : p.finalize (w.components cid) = .ok r) :
    ScopedWorld.psSet w n cid =
      ({ w with
          components := updateComp w.components cid r.2,
          ps := JsMap.set w.ps n (.real cid) }, none) := by
  unfold ScopedWorld.psSet
  rw [hlook]
  simp only [hfin]

theorem ScopedWorld.psSet_proxy_err {w : ScopedWorld} {n : Name} {cid : Nat}
    {p : PubSubProxy} {e : String}
    (hlook : JsMap.lookup w.ps n = some (.proxy p))
    (hfin : p.finalize (w.components cid) = .error e) :
    ScopedWorld.psSet w n cid = (w, some e) := by
  unfold ScopedWorld.psSet
  rw [hlook]
  simp only [hfin]

theorem ScopedWorld.psSet_real_ok {w : ScopedWorld} {n : Name} {cid oldc : Nat}
    {r : PSComponent × PSComponent}
    (hlook : JsMap.lookup w.ps n = some (.real oldc))
    (hpar : (w.components w.parentId).finalized = false)
    (hft : (w.components w.parentId).finalizeTriggers (w.components cid) = .ok r) :
    ScopedWorld.psSet w n cid =
      ({ w with
          components := updateComp (updateComp w.components w.parentId r.1) cid r.2,
          ps := JsMap.set w.ps n (.real cid) }, none) := by
  unfold ScopedWorld.psSet
  rw [hlook]
  simp only [hpar, Bool.false_eq_true, if_false, hft]

theorem ScopedWorld.psSet_real_err {w : ScopedWorld} {n : Name} {cid oldc : Nat}
    {e : String}
    (hlook : JsMap.lookup w.ps n = some (.real oldc))
    (hpar : (w.components w.parentId).finalized = false)
    (hft : (w.components w.parentId).finalizeTriggers (w.components cid) = .error e) :
    ScopedWorld.psSet w n cid =
      ({ w with
          components := updateComp w.components w.parentId { w.components w.parentId with finalized := true } }, some e) := by
  unfold ScopedWorld.psSet
  rw [hlook]
  simp only [hpar, Bool.false_eq_true, if_false, hft]

theorem stepW_get (w : ScopedWorld) (n : Name) :
    stepW w (.get n) = ((ScopedWorld.psGet w n).1, []) := rfl

theorem stepW_set (w : ScopedWorld) (n : Name) (cid : Nat) :
    stepW w (.set n cid) = ((ScopedWorld.psSet w n cid).1, []) := rfl

theorem stepW_slotSub_proxy {w : ScopedWorld} {n : Name} {p : PubSubProxy}
    (k : Name) (c : Nat) (hlook : JsMap.lookup w.ps n = some (.proxy p)) :
    stepW w (.slotSub n k c) =
      ({ w with ps := JsMap.set w.ps n (.proxy (p.triggerSubscribe k c)) }, []) := by
  simp only [stepW]
  rw [ScopedWorld.psGet_some hlook]

theorem stepW_slotSub_fresh {w : ScopedWorld} {n : Name}
    (k : Name) (c : Nat) (hlook : JsMap.lookup w.ps n = none) :
    stepW w (.slotSub n k c) =
      ({ w with ps := JsMap.set (JsMap.set w.ps n (.proxy ⟨[], []⟩)) n (.proxy (PubSubProxy.triggerSubscribe ⟨[], []⟩ k c)) }, []) := by
  simp only [stepW]
  rw [ScopedWorld.psGet_none hlook]

theorem stepW_slotSub_real_ok {w : ScopedWorld} {n : Name} {cid : Nat}
    {k : Name} {c : Nat} {c' : PSComponent}
    (hlook : JsMap.lookup w.ps n = some (.real cid))
    (hsub : (w.components cid).triggerSubscribe k c = .ok c') :
    stepW w (.slotSub n k c) =
      ({ w with components := updateComp w.components cid c' }, []) := by
  simp only [stepW]
  rw [ScopedWorld.psGet_some hlook]
  simp only [hsub]

theorem stepW_slotSub_real_err {w : ScopedWorld} {n : Name} {cid : Nat}
    {k : Name} {c : Nat} {e : String}
    (hlook : JsMap.lookup w.ps n = some (.real cid))
    (hsub : (w.components cid).triggerSubscribe k c = .error e) :
    stepW w (.slotSub n k c) = (w, []) := by
  simp only [stepW]
  rw [ScopedWorld.psGet_some hlook]
  simp only [hsub]

theorem stepW_slotUnsub_proxy {w : ScopedWorld} {n : Name} {p : PubSubProxy}
    (k : Name) (c : Nat) (hlook : JsMap.lookup w.ps n = some (.proxy p)) :
    stepW w (.slotUnsub n k c) =
      ({ w with ps := JsMap.set w.ps n (.proxy (p.triggerUnsubscribe k c)) }, []) := by
  simp only [stepW]
  rw [ScopedWorld.psGet_some hlook]

theorem stepW_slotUnsub_fresh {w : ScopedWorld} {n : Name}
    (k : Name) (c : Nat) (hlook : JsMap.lookup w.ps n = none) :
    stepW w (.slotUnsub n k c) =
      ({ w with ps := JsMap.set (JsMap.set w.ps n (.proxy ⟨[], []⟩)) n (.proxy (PubSubProxy.triggerUnsubscribe ⟨[], []⟩ k c)) }, []) := by
  simp only [stepW]
  rw [ScopedWorld.psGet_none hlook]

theorem stepW_slotUnsub_real_ok {w : ScopedWorld} {n : Name} {cid : Nat}
    {k : Name} {c : Nat} {c' : PSComponent}
    (hlook : JsMap.lookup w.ps n = some (.real cid))
    (hsub : (w.components cid).triggerUnsubscribe k c = .ok c') :
    stepW w (.slotUnsub n k c) =
      ({ w with components := updateComp w.components cid c' }, []) := by
  simp only [stepW]
  rw [ScopedWorld.psGet_some hlook]
  simp only [hsub]

theorem stepW_slotUnsub_real_err {w : ScopedWorld} {n : Name} {cid : Nat}
    {k : Name} {c : Nat} {e : String}
    (hlook : JsMap.lookup w.ps n = some (.real cid))
    (hsub : (w.components cid).triggerUnsubscribe k c = .error e) :
    stepW w (.slotUnsub n k c) = (w, []) := by
  simp only [stepW]
  rw [ScopedWorld.psGet_some hlook]
  simp only [hsub]

theorem stepW_slotWait_proxy {w : ScopedWorld} {n : Name} {p : PubSubProxy}
    (k : Name) (wi : Nat) (hlook : JsMap.lookup w.ps n = some (.proxy p)) :
    stepW w (.slotWait n k wi) =
      ({ w with ps := JsMap.set w.ps n (.proxy (p.asyncGet k wi)) }, []) := by
  simp only [stepW]
  rw [ScopedWorld.psGet_some hlook]

theorem stepW_slotWait_fresh {w : ScopedWorld} {n : Name}
    (k : Name) (wi : Nat) (hlook : JsMap.lookup w.ps n = none) :
    stepW w (.slotWait n k wi) =
      ({ w with ps := JsMap.set (JsMap.set w.ps n (.proxy ⟨[], []⟩)) n (.proxy (PubSubProxy.asyncGet ⟨[], []⟩ k wi)) }, []) := by
  simp only [stepW]
  rw [ScopedWorld.psGet_none hlook]

theorem stepW_slotWait_real_ok {w : ScopedWorld} {n : Name} {cid : Nat}
    {k : Name} {wi : Nat} {c' : PSComponent}
    (hlook : JsMap.lookup w.ps n = some (.real cid))
    (hsub : (w.components cid).triggerPromise k wi = .ok c') :
    stepW w (.slotWait n k wi) =
      ({ w with components := updateComp w.components cid c' }, []) := by
  simp only [stepW]
  rw [ScopedWorld.psGet_some hlook]
  simp only [hsub]

theorem stepW_slotWait_real_err {w : ScopedWorld} {n : Name} {cid : Nat}
    {k : Name} {wi : Nat} {e : String}
    (hlook : JsMap.lookup w.ps n = some (.real cid))
    (hsub : (w.components cid).triggerPromise k wi = .error e) :
    stepW w (.slotWait n k wi) = (w, []) := by
  simp only [stepW]
  rw [ScopedWorld.psGet_some hlook]
  simp only [hsub]

theorem stepW_fire_ok {w : ScopedWorld} {cid : Nat} {k : Name} {args : Args}
    {r : PSComponent × List Event}
    (htr : (w.components cid).trigger k args = .ok r) :
    stepW w (.fire cid k args) =
      ({ w with components := updateComp w.components cid r.1 }, r.2) := by
  simp only [stepW, htr]

theorem stepW_fire_err {w : ScopedWorld} {cid : Nat} {k : Name} {args : Args}
    {e : String} (htr : (w.components cid).trigger k args = .error e) :
    stepW w (.fire cid k args) = (w, []) := by
  simp only [stepW, htr]

theorem stepW_cbfree (cb : Nat) (op : WOp) (w : ScopedWorld)
    (hw : CbFree w cb) (hop : opMentionsCb op cb = false) :
    CbFree (stepW w op).1 cb ∧ ∀ args, Event.invoke cb args ∉ (stepW w op).2 := by
  obtain ⟨hcomp, hprox⟩ := hw
  cases op with
  | get n =>
      rw [stepW_get]
      cases hlook : JsMap.lookup w.ps n with
      | some s =>
          rw [ScopedWorld.psGet_some hlook]
          exact ⟨⟨hcomp, hprox⟩, fun args => List.not_mem_nil _⟩
      | none =>
          rw [ScopedWorld.psGet_none hlook]
          refine ⟨⟨hcomp, ?_⟩, fun args => List.not_mem_nil _⟩
          intro n' p' hp'
          by_cases hn : n' = n
          · subst hn
            rw [JsMap.lookup_set_self] at hp'
            obtain rfl : (⟨[], []⟩ : PubSubProxy) = p' := by simpa using hp'
            simp [TrigMap.allIds]
          · rw [JsMap.lookup_set_ne _ _ _ _ hn] at hp'
            exact hprox n' p' hp'
  | set n cid =>
      rw [stepW_set]
      cases hlook : JsMap.lookup w.ps n with
      | none =>
          rw [ScopedWorld.psSet_none hlook]
          refine ⟨⟨hcomp, ?_⟩, fun args => List.not_mem_nil _⟩
          intro n' p' hp'
          by_cases hn : n' = n
          · subst hn
            rw [JsMap.lookup_set_self] at hp'
            exact absurd hp' (by simp)
          · rw [JsMap.lookup_set_ne _ _ _ _ hn] at hp'
            exact hprox n' p' hp'
      | some s =>
          cases s with
          | proxy p =>
              cases hfin : p.finalize (w.components cid) with
              | ok r =>
                  rw [ScopedWorld.psSet_proxy_ok hlook hfin]
                  refine ⟨⟨?_, ?_⟩, fun args => List.not_mem_nil _⟩
                  · intro i
                    show cb ∉ compCbs (updateComp w.components cid r.2 i)
                    unfold updateComp
                    by_cases hi : i = cid
                    · rw [if_pos hi]
                      intro hmem
                      rcases (PubSubProxy.finalize_mem hfin).1 cb hmem with h' | h'
                      · exact hcomp cid h'
                      · exact hprox _ p hlook h'
                    · rw [if_neg hi]
                      exact hcomp i
                  · intro n' p' hp'
                    by_cases hn : n' = n
                    · subst hn
                      rw [JsMap.lookup_set_self] at hp'
                      exact absurd hp' (by simp)
                    · rw [JsMap.lookup_set_ne _ _ _ _ hn] at hp'
                      exact hprox n' p' hp'
              | error e =>
                  rw [ScopedWorld.psSet_proxy_err hlook hfin]
                  exact ⟨⟨hcomp, hprox⟩, fun args => List.not_mem_nil _⟩
          | real oldc =>
              by_cases hpar : (w.components w.parentId).finalized = true
              · rw [ScopedWorld.psSet_sealed w n cid oldc hlook hpar]
                exact ⟨⟨hcomp, hprox⟩, fun args => List.not_mem_nil _⟩
              · have hpar' : (w.components w.parentId).finalized = false :=
                  eq_false_of_ne_true hpar
                cases hft : (w.components w.parentId).finalizeTriggers
                    (w.components cid) with
                | ok r =>
                    rw [ScopedWorld.psSet_real_ok hlook hpar' hft]
                    obtain ⟨hr1, hmemsub, _, _⟩ := PSComponent.finalizeTriggers_mem hft
                    refine ⟨⟨?_, ?_⟩, fun args => List.not_mem_nil _⟩
                    · intro i
                      show cb ∉ compCbs (updateComp
                        (updateComp w.components w.parentId r.1) cid r.2 i)
                      unfold updateComp
                      by_cases hi : i = cid
                      · rw [if_pos hi]
                        intro hmem
                        rcases hmemsub cb hmem with h' | h'
                        · exact hcomp cid h'
                        · exact hcomp w.parentId h'
                      · rw [if_neg hi]
                        by_cases hip : i = w.parentId
                        · rw [if_pos hip, hr1]
                          simp [compCbs, TrigMap.allIds]
                        · rw [if_neg hip]
                          exact hcomp i
                    · intro n' p' hp'
                      by_cases hn : n' = n
                      · subst hn
                        rw [JsMap.lookup_set_self] at hp'
                        exact absurd hp' (by simp)
                      · rw [JsMap.lookup_set_ne _ _ _ _ hn] at hp'
                        exact hprox n' p' hp'
                | error e =>
                    rw [ScopedWorld.psSet_real_err hlook hpar' hft]
                    refine ⟨⟨?_, hprox⟩, fun args => List.not_mem_nil _⟩
                    intro i
                    show cb ∉ compCbs (updateComp w.components w.parentId _ i)
                    unfold updateComp
                    by_cases hip : i = w.parentId
                    · rw [if_pos hip]
                      exact hcomp w.parentId
                    · rw [if_neg hip]
                      exact hcomp i
  | slotSub n k c =>
      have hc : c ≠ cb := by simpa [opMentionsCb] using hop
      cases hlook : JsMap.lookup w.ps n with
      | some s =>
          cases s with
          | proxy p =>
              rw [stepW_slotSub_proxy k c hlook]
              refine ⟨⟨hcomp, ?_⟩, fun args => List.not_mem_nil _⟩
              intro n' p' hp'
              by_cases hn : n' = n
              · subst hn
                rw [JsMap.lookup_set_self] at hp'
                obtain rfl : p.triggerSubscribe k c = p' := by simpa using hp'
                intro hmem
                rcases PubSubProxy.mem_subs_triggerSubscribe hmem with h' | h'
                · exact hprox _ p hlook h'
                · exact hc h'.symm
              · rw [JsMap.lookup_set_ne _ _ _ _ hn] at hp'
                exact hprox n' p' hp'
          | real cid =>
              cases hsub : (w.components cid).triggerSubscribe k c with
              | ok c' =>
                  rw [stepW_slotSub_real_ok hlook hsub]
                  obtain ⟨hc', _⟩ := PSComponent.triggerSubscribe_ok_inv hsub
                  refine ⟨⟨?_, hprox⟩, fun args => List.not_mem_nil _⟩
                  intro i
                  show cb ∉ compCbs (updateComp w.components cid c' i)
                  unfold updateComp
                  by_cases hi : i = cid
                  · rw [if_pos hi, hc']
                    intro hmem
                    rcases TrigMap.mem_allIds_addTo hmem with h' | h'
                    · exact hcomp cid h'
                    · exact hc h'.symm
                  · rw [if_neg hi]
                    exact hcomp i
              | error e =>
                  rw [stepW_slotSub_real_err hlook hsub]
                  exact ⟨⟨hcomp, hprox⟩, fun args => List.not_mem_nil _⟩
      | none =>
          rw [stepW_slotSub_fresh k c hlook]
          refine ⟨⟨hcomp, ?_⟩, fun args => List.not_mem_nil _⟩
          intro n' p' hp'
          by_cases hn : n' = n
          · subst hn
            rw [JsMap.lookup_set_self] at hp'
            obtain rfl : PubSubProxy.triggerSubscribe ⟨[], []⟩ k c = p' := by
              simpa using hp'
            intro hmem
            rcases PubSubProxy.mem_subs_triggerSubscribe hmem with h' | h'
            · simp [TrigMap.allIds] at h'
            · exact hc h'.symm
          · rw [JsMap.lookup_set_ne _ _ _ _ hn,
              JsMap.lookup_set_ne _ _ _ _ hn] at hp'
            exact hprox n' p' hp'
  | slotUnsub n k c =>
      cases hlook : JsMap.lookup w.ps n with
      | some s =>
          cases s with
          | proxy p =>
              rw [stepW_slotUnsub_proxy k c hlook]
              refine ⟨⟨hcomp, ?_⟩, fun args => List.not_mem_nil _⟩
              intro n' p' hp'
              by_cases hn : n' = n
              · subst hn
                rw [JsMap.lookup_set_self] at hp'
                obtain rfl : p.triggerUnsubscribe k c = p' := by simpa using hp'
                intro hmem
                exact hprox _ p hlook (PubSubProxy.mem_subs_triggerUnsubscribe hmem)
              · rw [JsMap.lookup_set_ne _ _ _ _ hn] at hp'
                exact hprox n' p' hp'
          | real cid =>
              cases hsub : (w.components cid).triggerUnsubscribe k c with
              | ok c' =>
                  rw [stepW_slotUnsub_real_ok hlook hsub]
                  obtain ⟨hmemc, _⟩ := PSComponent.triggerUnsubscribe_ok_inv hsub
                  refine ⟨⟨?_, hprox⟩, fun args => List.not_mem_nil _⟩
                  intro i
                  show cb ∉ compCbs (updateComp w.components cid c' i)
                  unfold updateComp
                  by_cases hi : i = cid
                  · rw [if_pos hi]
                    intro hmem
                    exact hcomp cid (hmemc cb hmem)
                  · rw [if_neg hi]
                    exact hcomp i
              | error e =>
                  rw [stepW_slotUnsub_real_err hlook hsub]
                  exact ⟨⟨hcomp, hprox⟩, fun args => List.not_mem_nil _⟩
      | none =>
          rw [stepW_slotUnsub_fresh k c hlook]
          refine ⟨⟨hcomp, ?_⟩, fun args => List.not_mem_nil _⟩
          intro n' p' hp'
          by_cases hn : n' = n
          · subst hn
            rw [JsMap.lookup_set_self] at hp'
            obtain rfl : PubSubProxy.triggerUnsubscribe ⟨[], []⟩ k c = p' := by
              simpa using hp'
            intro hmem
            have := PubSubProxy.mem_subs_triggerUnsubscribe hmem
            simp [TrigMap.allIds] at this
          · rw [JsMap.lookup_set_ne _ _ _ _ hn,
              JsMap.lookup_set_ne _ _ _ _ hn] at hp'
            exact hprox n' p' hp'
  | slotWait n k wi =>
      cases hlook : JsMap.lookup w.ps n with
      | some s =>
          cases s with
          | proxy p =>
              rw [stepW_slotWait_proxy k wi hlook]
              refine ⟨⟨hcomp, ?_⟩, fun args => List.not_mem_nil _⟩
              intro n' p' hp'
              by_cases hn : n' = n
              · subst hn
                rw [JsMap.lookup_set_self] at hp'
                obtain rfl : p.asyncGet k wi = p' := by simpa using hp'
                exact hprox _ p hlook
              · rw [JsMap.lookup_set_ne _ _ _ _ hn] at hp'
                exact hprox n' p' hp'
          | real cid =>
              cases hsub : (w.components cid).triggerPromise k wi with
              | ok c' =>
                  rw [stepW_slotWait_real_ok hlook hsub]
                  obtain ⟨hc', _⟩ := PSComponent.triggerPromise_ok_inv hsub
                  refine ⟨⟨?_, hprox⟩, fun args => List.not_mem_nil _⟩
                  intro i
                  show cb ∉ compCbs (updateComp w.components cid c' i)
                  unfold updateComp
                  by_cases hi : i = cid
                  · rw [if_pos hi, hc']
                    exact hcomp cid
                  · rw [if_neg hi]
                    exact hcomp i
              | error e =>
                  rw [stepW_slotWait_real_err hlook hsub]
                  exact ⟨⟨hcomp, hprox⟩, fun args => List.not_mem_nil _⟩
      | none =>
          rw [stepW_slotWait_fresh k wi hlook]
          refine ⟨⟨hcomp, ?_⟩, fun args => List.not_mem_nil _⟩
          intro n' p' hp'
          by_cases hn : n' = n
          · subst hn
            rw [JsMap.lookup_set_self] at hp'
            obtain rfl : PubSubProxy.asyncGet ⟨[], []⟩ k wi = p' := by
              simpa using hp'
            show cb ∉ TrigMap.allIds (PubSubProxy.asyncGet ⟨[], []⟩ k wi).subscriptions
            simp [PubSubProxy.asyncGet, TrigMap.allIds]
          · rw [JsMap.lookup_set_ne _ _ _ _ hn,
              JsMap.lookup_set_ne _ _ _ _ hn] at hp'
            exact hprox n' p' hp'
  | fire cid k args0 =>
      cases htr : (w.components cid).trigger k args0 with
      | ok r =>
          rw [stepW_fire_ok htr]
          obtain ⟨hfin, hr⟩ := PSComponent.trigger_ok_inv htr
          refine ⟨⟨?_, hprox⟩, fun args => ?_⟩
          · intro i
            show cb ∉ compCbs (updateComp w.components cid r.1 i)
            unfold updateComp
            by_cases hi : i = cid
            · rw [if_pos hi, hr]
              intro hmem
              exact hcomp cid (TrigMap.mem_allIds_ensure hmem)
            · rw [if_neg hi]
              exact hcomp i
          · show Event.invoke cb args ∉ r.2
            rw [hr]
            intro hmem
            rcases List.mem_append.mp hmem with hmem' | hmem'
            · rw [List.mem_map] at hmem'
              obtain ⟨x, _, hx⟩ := hmem'
              exact Event.noConfusion hx
            · rw [List.mem_map] at hmem'
              obtain ⟨x, hxm, hx⟩ := hmem'
              have hxcb : x = cb := ((Event.invoke.injEq _ _ _ _).mp hx).1
              subst hxcb
              exact hcomp cid (TrigMap.mem_allIds_of_mem_getD hxm)
      | error e =>
          rw [stepW_fire_err htr]
          exact ⟨⟨hcomp, hprox⟩, fun args => List.not_mem_nil _⟩

theorem stepW_wfree (wid : Nat) (op : WOp) (w : ScopedWorld)
    (hw : WFree w wid) (hop : opMentionsW op wid = false) :
    WFree (stepW w op).1 wid ∧ ∀ args, Event.resolve wid args ∉ (stepW w op).2 := by
  obtain ⟨hcomp, hprox⟩ := hw
  cases op with
  | get n =>
      rw [stepW_get]
      cases hlook : JsMap.lookup w.ps n with
      | some s =>
          rw [ScopedWorld.psGet_some hlook]
          exact ⟨⟨hcomp, hprox⟩, fun args => List.not_mem_nil _⟩
      | none =>
          rw [ScopedWorld.psGet_none hlook]
          refine ⟨⟨hcomp, ?_⟩, fun args => List.not_mem_nil _⟩
          intro n' p' hp'
          by_cases hn : n' = n
          · subst hn
            rw [JsMap.lookup_set_self] at hp'
            obtain rfl : (⟨[], []⟩ : PubSubProxy) = p' := by simpa using hp'
            simp [TrigMap.allIds]
          · rw [JsMap.lookup_set_ne _ _ _ _ hn] at hp'
            exact hprox n' p' hp'
  | set n cid =>
      rw [stepW_set]
      cases hlook : JsMap.lookup w.ps n with
      | none =>
          rw [ScopedWorld.psSet_none hlook]
          refine ⟨⟨hcomp, ?_⟩, fun args => List.not_mem_nil _⟩
          intro n' p' hp'
          by_cases hn : n' = n
          · subst hn
            rw [JsMap.lookup_set_self] at hp'
            exact absurd hp' (by simp)
          · rw [JsMap.lookup_set_ne _ _ _ _ hn] at hp'
            exact hprox n' p' hp'
      | some s =>
          cases s with
          | proxy p =>
              cases hfin : p.finalize (w.components cid) with
              | ok r =>
                  rw [ScopedWorld.psSet_proxy_ok hlook hfin]
                  refine ⟨⟨?_, ?_⟩, fun args => List.not_mem_nil _⟩
                  · intro i
                    show wid ∉ compWs (updateComp w.components cid r.2 i)
                    unfold updateComp
                    by_cases hi : i = cid
                    · rw [if_pos hi]
                      intro hmem
                      rcases (PubSubProxy.finalize_mem hfin).2.1 wid hmem with h' | h'
                      · exact hcomp cid h'
                      · exact hprox _ p hlook h'
                    · rw [if_neg hi]
                      exact hcomp i
                  · intro n' p' hp'
                    by_cases hn : n' = n
                    · subst hn
                      rw [JsMap.lookup_set_self] at hp'
                      exact absurd hp' (by simp)
                    · rw [JsMap.lookup_set_ne _ _ _ _ hn] at hp'
                      exact hprox n' p' hp'
              | error e =>
                  rw [ScopedWorld.psSet_proxy_err hlook hfin]
                  exact ⟨⟨hcomp, hprox⟩, fun args => List.not_mem_nil _⟩
          | real oldc =>
              by_cases hpar : (w.components w.parentId).finalized = true
              · rw [ScopedWorld.psSet_sealed w n cid oldc hlook hpar]
                exact ⟨⟨hcomp, hprox⟩, fun args => List.not_mem_nil _⟩
              · have hpar' : (w.components w.parentId).finalized = false :=
                  eq_false_of_ne_true hpar
                cases hft : (w.components w.parentId).finalizeTriggers
                    (w.components cid) with
                | ok r =>
                    rw [ScopedWorld.psSet_real_ok hlook hpar' hft]
                    obtain ⟨hr1, _, hmemw, _⟩ := PSComponent.finalizeTriggers_mem hft
                    refine ⟨⟨?_, ?_⟩, fun args => List.not_mem_nil _⟩
                    · intro i
                      show wid ∉ compWs (updateComp
                        (updateComp w.components w.parentId r.1) cid r.2 i)
                      unfold updateComp
                      by_cases hi : i = cid
                      · rw [if_pos hi]
                        intro hmem
                        rcases hmemw wid hmem with h' | h'
                        · exact hcomp cid h'
                        · exact hcomp w.parentId h'
                      · rw [if_neg hi]
                        by_cases hip : i = w.parentId
                        · rw [if_pos hip, hr1]
                          simp [compWs, TrigMap.allIds]
                        · rw [if_neg hip]
                          exact hcomp i
                    · intro n' p' hp'
                      by_cases hn : n' = n
                      · subst hn
                        rw [JsMap.lookup_set_self] at hp'
                        exact absurd hp' (by simp)
                      · rw [JsMap.lookup_set_ne _ _ _ _ hn] at hp'
                        exact hprox n' p' hp'
                | error e =>
                    rw [ScopedWorld.psSet_real_err hlook hpar' hft]
                    refine ⟨⟨?_, hprox⟩, fun args => List.not_mem_nil _⟩
                    intro i
                    show wid ∉ compWs (updateComp w.components w.parentId _ i)
                    unfold updateComp
                    by_cases hip : i = w.parentId
                    · rw [if_pos hip]
                      exact hcomp w.parentId
                    · rw [if_neg hip]
                      exact hcomp i
  | slotSub n k c =>
      cases hlook : JsMap.lookup w.ps n with
      | some s =>
          cases s with
          | proxy p =>
              rw [stepW_slotSub_proxy k c hlook]
              refine ⟨⟨hcomp, ?_⟩, fun args => List.not_mem_nil _⟩
              intro n' p' hp'
              by_cases hn : n' = n
              · subst hn
                rw [JsMap.lookup_set_self] at hp'
                obtain rfl : p.triggerSubscribe k c = p' := by simpa using hp'
                exact hprox _ p hlook
              · rw [JsMap.lookup_set_ne _ _ _ _ hn] at hp'
                exact hprox n' p' hp'
          | real cid =>
              cases hsub : (w.components cid).triggerSubscribe k c with
              | ok c' =>
                  rw [stepW_slotSub_real_ok hlook hsub]
                  obtain ⟨hc', _⟩ := PSComponent.triggerSubscribe_ok_inv hsub
                  refine ⟨⟨?_, hprox⟩, fun args => List.not_mem_nil _⟩
                  intro i
                  show wid ∉ compWs (updateComp w.components cid c' i)
                  unfold updateComp
                  by_cases hi : i = cid
                  · rw [if_pos hi, hc']
                    exact hcomp cid
                  · rw [if_neg hi]
                    exact hcomp i
              | error e =>
                  rw [stepW_slotSub_real_err hlook hsub]
                  exact ⟨⟨hcomp, hprox⟩, fun args => List.not_mem_nil _⟩
      | none =>
          rw [stepW_slotSub_fresh k c hlook]
          refine ⟨⟨hcomp, ?_⟩, fun args => List.not_mem_nil _⟩
          intro n' p' hp'
          by_cases hn : n' = n
          · subst hn
            rw [JsMap.lookup_set_self] at hp'
            obtain rfl : PubSubProxy.triggerSubscribe ⟨[], []⟩ k c = p' := by
              simpa using hp'
            show wid ∉ TrigMap.allIds
              (PubSubProxy.triggerSubscribe ⟨[], []⟩ k c).promises
            simp [PubSubProxy.triggerSubscribe, TrigMap.allIds]
          · rw [JsMap.lookup_set_ne _ _ _ _ hn,
              JsMap.lookup_set_ne _ _ _ _ hn] at hp'
            exact hprox n' p' hp'
  | slotUnsub n k c =>
      cases hlook : JsMap.lookup w.ps n with
      | some s =>
          cases s with
          | proxy p =>
              rw [stepW_slotUnsub_proxy k c hlook]
              refine ⟨⟨hcomp, ?_⟩, fun args => List.not_mem_nil _⟩
              intro n' p' hp'
              by_cases hn : n' = n
              · subst hn
                rw [JsMap.lookup_set_self] at hp'
                obtain rfl : p.triggerUnsubscribe k c = p' := by simpa using hp'
                exact hprox _ p hlook
              · rw [JsMap.lookup_set_ne _ _ _ _ hn] at hp'
                exact hprox n' p' hp'
          | real cid =>
              cases hsub : (w.components cid).triggerUnsubscribe k c with
              | ok c' =>
                  rw [stepW_slotUnsub_real_ok hlook hsub]
                  obtain ⟨_, hprom⟩ := PSComponent.triggerUnsubscribe_ok_inv hsub
                  refine ⟨⟨?_, hprox⟩, fun args => List.not_mem_nil _⟩
                  intro i
                  show wid ∉ compWs (updateComp w.components cid c' i)
                  unfold updateComp
                  by_cases hi : i = cid
                  · rw [if_pos hi]
                    show wid ∉ TrigMap.allIds c'.promises
                    rw [hprom]
                    exact hcomp cid
                  · rw [if_neg hi]
                    exact hcomp i
              | error e =>
                  rw [stepW_slotUnsub_real_err hlook hsub]
                  exact ⟨⟨hcomp, hprox⟩, fun args => List.not_mem_nil _⟩
      | none =>
          rw [stepW_slotUnsub_fresh k c hlook]
          refine ⟨⟨hcomp, ?_⟩, fun args => List.not_mem_nil _⟩
          intro n' p' hp'
          by_cases hn : n' = n
          · subst hn
            rw [JsMap.lookup_set_self] at hp'
            obtain rfl : PubSubProxy.triggerUnsubscribe ⟨[], []⟩ k c = p' := by
              simpa using hp'
            show wid ∉ TrigMap.allIds
              (PubSubProxy.triggerUnsubscribe ⟨[], []⟩ k c).promises
            simp [PubSubProxy.triggerUnsubscribe, TrigMap.allIds, TrigMap.getD,
              JsMap.lookup_nil, SetList.del, JsMap.erase]
          · rw [JsMap.lookup_set_ne _ _ _ _ hn,
              JsMap.lookup_set_ne _ _ _ _ hn] at hp'
            exact hprox n' p' hp'
  | slotWait n k wi =>
      have hwi : wi ≠ wid := by simpa [opMentionsW] using hop
      cases hlook : JsMap.lookup w.ps n with
      | some s =>
          cases s with
          | proxy p =>
              rw [stepW_slotWait_proxy k wi hlook]
              refine ⟨⟨hcomp, ?_⟩, fun args => List.not_mem_nil _⟩
              intro n' p' hp'
              by_cases hn : n' = n
              · subst hn
                rw [JsMap.lookup_set_self] at hp'
                obtain rfl : p.asyncGet k wi = p' := by simpa using hp'
                intro hmem
                rcases PubSubProxy.mem_proms_asyncGet hmem with h' | h'
                · exact hprox _ p hlook h'
                · exact hwi h'.symm
              · rw [JsMap.lookup_set_ne _ _ _ _ hn] at hp'
                exact hprox n' p' hp'
          | real cid =>
              cases hsub : (w.components cid).triggerPromise k wi with
              | ok c' =>
                  rw [stepW_slotWait_real_ok hlook hsub]
                  obtain ⟨hc', _⟩ := PSComponent.triggerPromise_ok_inv hsub
                  refine ⟨⟨?_, hprox⟩, fun args => List.not_mem_nil _⟩
                  intro i
                  show wid ∉ compWs (updateComp w.components cid c' i)
                  unfold updateComp
                  by_cases hi : i = cid
                  · rw [if_pos hi, hc']
                    intro hmem
                    rcases TrigMap.mem_allIds_addTo hmem with h' | h'
                    · exact hcomp cid h'
                    · exact hwi h'.symm
                  · rw [if_neg hi]
                    exact hcomp i
              | error e =>
                  rw [stepW_slotWait_real_err hlook hsub]
                  exact ⟨⟨hcomp, hprox⟩, fun args => List.not_mem_nil _⟩
      | none =>
          rw [stepW_slotWait_fresh k wi hlook]
          refine ⟨⟨hcomp, ?_⟩, fun args => List.not_mem_nil _⟩
          intro n' p' hp'
          by_cases hn : n' = n
          · subst hn
            rw [JsMap.lookup_set_self] at hp'
            obtain rfl : PubSubProxy.asyncGet ⟨[], []⟩ k wi = p' := by
              simpa using hp'
            intro hmem
            rcases PubSubProxy.mem_proms_asyncGet hmem with h' | h'
            · simp [TrigMap.allIds] at h'
            · exact hwi h'.symm
          · rw [JsMap.lookup_set_ne _ _ _ _ hn,
              JsMap.lookup_set_ne _ _ _ _ hn] at hp'
            exact hprox n' p' hp'
  | fire cid k args0 =>
      cases htr : (w.components cid).trigger k args0 with
      | ok r =>
          rw [stepW_fire_ok htr]
          obtain ⟨hfin, hr⟩ := PSComponent.trigger_ok_inv htr
          refine ⟨⟨?_, hprox⟩, fun args => ?_⟩
          · intro i
            show wid ∉ compWs (updateComp w.components cid r.1 i)
            unfold updateComp
            by_cases hi : i = cid
            · rw [if_pos hi, hr]
              intro hmem
              exact hcomp cid (TrigMap.allIds_erase_subset hmem)
            · rw [if_neg hi]
              exact hcomp i
          · show Event.resolve wid args ∉ r.2
            rw [hr]
            intro hmem
            rcases List.mem_append.mp hmem with hmem' | hmem'
            · rw [List.mem_map] at hmem'
              obtain ⟨x, hxm, hx⟩ := hmem'
              have hxw : x = wid := ((Event.resolve.injEq _ _ _ _).mp hx).1
              subst hxw
              exact hcomp cid (TrigMap.mem_allIds_of_mem_getD hxm)
            · rw [List.mem_map] at hmem'
              obtain ⟨x, _, hx⟩ := hmem'
              exact Event.noConfusion hx
      | error e =>
          rw [stepW_fire_err htr]
          exact ⟨⟨hcomp, hprox⟩, fun args => List.not_mem_nil _⟩

theorem stepW_real (op : WOp) (w : ScopedWorld) (name : Name) (c0 : Nat)
    (h : JsMap.lookup w.ps name = some (.real c0)) :
    ∃ c1, JsMap.lookup (stepW w op).1.ps name = some (Slot.real c1) := by
  cases op with
  | get n =>
      rw [stepW_get]
      cases hlook : JsMap.lookup w.ps n with
      | some s =>
          rw [ScopedWorld.psGet_some hlook]
          exact ⟨c0, h⟩
      | none =>
          rw [ScopedWorld.psGet_none hlook]
          have hn : name ≠ n := by
            intro hh
            rw [hh, hlook] at h
            exact Option.noConfusion h
          refine ⟨c0, ?_⟩
          show JsMap.lookup (JsMap.set w.ps n _) name = _
          rw [JsMap.lookup_set_ne _ _ _ _ hn]
          exact h
  | set n cid =>
      rw [stepW_set]
      cases hlook : JsMap.lookup w.ps n with
      | none =>
          rw [ScopedWorld.psSet_none hlook]
          have hn : name ≠ n := by
            intro hh
            rw [hh, hlook] at h
            exact Option.noConfusion h
          refine ⟨c0, ?_⟩
          show JsMap.lookup (JsMap.set w.ps n _) name = _
          rw [JsMap.lookup_set_ne _ _ _ _ hn]
          exact h
      | some s =>
          cases s with
          | proxy p =>
              have hn : name ≠ n := by
                intro hh
                rw [hh, hlook] at h
                exact Slot.noConfusion (Option.some.inj h)
              cases hfin : p.finalize (w.components cid) with
              | ok r =>
                  rw [ScopedWorld.psSet_proxy_ok hlook hfin]
                  refine ⟨c0, ?_⟩
                  show JsMap.lookup (JsMap.set w.ps n _) name = _
                  rw [JsMap.lookup_set_ne _ _ _ _ hn]
                  exact h
              | error e =>
                  rw [ScopedWorld.psSet_proxy_err hlook hfin]
                  exact ⟨c0, h⟩
          | real oldc =>
              by_cases hpar : (w.components w.parentId).finalized = true
              · rw [ScopedWorld.psSet_sealed w n cid oldc hlook hpar]
                exact ⟨c0, h⟩
              · have hpar' : (w.components w.parentId).finalized = false :=
                  eq_false_of_ne_true hpar
                cases hft : (w.components w.parentId).finalizeTriggers
                    (w.components cid) with
                | ok r =>
                    rw [ScopedWorld.psSet_real_ok hlook hpar' hft]
                    by_cases hn : name = n
                    · subst hn
                      exact ⟨cid, JsMap.lookup_set_self _ _ _⟩
                    · refine ⟨c0, ?_⟩
                      show JsMap.lookup (JsMap.set w.ps _ _) name = _
                      rw [JsMap.lookup_set_ne _ _ _ _ hn]
                      exact h
                | error e =>
                    rw [ScopedWorld.psSet_real_err hlook hpar' hft]
                    exact ⟨c0, h⟩
  | slotSub n k c =>
      cases hlook : JsMap.lookup w.ps n with
      | some s =>
          cases s with
          | proxy p =>
              rw [stepW_slotSub_proxy k c hlook]
              have hn : name ≠ n := by
                intro hh
                rw [hh, hlook] at h
                exact Slot.noConfusion (Option.some.inj h)
              refine ⟨c0, ?_⟩
              show JsMap.lookup (JsMap.set w.ps n _) name = _
              rw [JsMap.lookup_set_ne _ _ _ _ hn]
              exact h
          | real cid =>
              cases hsub : (w.components cid).triggerSubscribe k c with
              | ok c' =>
                  rw [stepW_slotSub_real_ok hlook hsub]
                  exact ⟨c0, h⟩
              | error e =>
                  rw [stepW_slotSub_real_err hlook hsub]
                  exact ⟨c0, h⟩
      | none =>
          rw [stepW_slotSub_fresh k c hlook]
          have hn : name ≠ n := by
            intro hh
            rw [hh, hlook] at h
            exact Option.noConfusion h
          refine ⟨c0, ?_⟩
          show JsMap.lookup (JsMap.set (JsMap.set w.ps n _) n _) name = _
          rw [JsMap.lookup_set_ne _ _ _ _ hn, JsMap.lookup_set_ne _ _ _ _ hn]
          exact h
  | slotUnsub n k c =>
      cases hlook : JsMap.lookup w.ps n with
      | some s =>
          cases s with
          | proxy p =>
              rw [stepW_slotUnsub_proxy k c hlook]
              have hn : name ≠ n := by
                intro hh
                rw [hh, hlook] at h
                exact Slot.noConfusion (Option.some.inj h)
              refine ⟨c0, ?_⟩
              show JsMap.lookup (JsMap.set w.ps n _) name = _
              rw [JsMap.lookup_set_ne _ _ _ _ hn]
              exact h
          | real cid =>
              cases hsub : (w.components cid).triggerUnsubscribe k c with
              | ok c' =>
                  rw [stepW_slotUnsub_real_ok hlook hsub]
                  exact ⟨c0, h⟩
              | error e =>
                  rw [stepW_slotUnsub_real_err hlook hsub]
                  exact ⟨c0, h⟩
      | none =>
          rw [stepW_slotUnsub_fresh k c hlook]
          have hn : name ≠ n := by
            intro hh
            rw [hh, hlook] at h
            exact Option.noConfusion h
          refine ⟨c0, ?_⟩
          show JsMap.lookup (JsMap.set (JsMap.set w.ps n _) n _) name = _
          rw [JsMap.lookup_set_ne _ _ _ _ hn, JsMap.lookup_set_ne _ _ _ _ hn]
          exact h
  | slotWait n k wi =>
      cases hlook : JsMap.lookup w.ps n with
      | some s =>
          cases s with
          | proxy p =>
              rw [stepW_slotWait_proxy k wi hlook]
              have hn : name ≠ n := by
                intro hh
                rw [hh, hlook] at h
                exact Slot.noConfusion (Option.some.inj h)
              refine ⟨c0, ?_⟩
              show JsMap.lookup (JsMap.set w.ps n _) name = _
              rw [JsMap.lookup_set_ne _ _ _ _ hn]
              exact h
          | real cid =>
              cases hsub : (w.components cid).triggerPromise k wi with
              | ok c' =>
                  rw [stepW_slotWait_real_ok hlook hsub]
                  exact ⟨c0, h⟩
              | error e =>
                  rw [stepW_slotWait_real_err hlook hsub]
                  exact ⟨c0, h⟩
      | none =>
          rw [stepW_slotWait_fresh k wi hlook]
          have hn : name ≠ n := by
            intro hh
            rw [hh, hlook] at h
            exact Option.noConfusion h
          refine ⟨c0, ?_⟩
          show JsMap.lookup (JsMap.set (JsMap.set w.ps n _) n _) name = _
          rw [JsMap.lookup_set_ne _ _ _ _ hn, JsMap.lookup_set_ne _ _ _ _ hn]
          exact h
  | fire cid k args0 =>
      cases htr : (w.components cid).trigger k args0 with
      | ok r =>
          rw [stepW_fire_ok htr]
          exact ⟨c0, h⟩
      | error e =>
          rw [stepW_fire_err htr]
          exact ⟨c0, h⟩

theorem runW_cons (w : ScopedWorld) (op : WOp) (rest : List WOp) :
    runW w (op :: rest) =
      ((runW (stepW w op).1 rest).1,
        (stepW w op).2 ++ (runW (stepW w op).1 rest).2) := rfl

theorem runW_cbfree (cb : Nat) (ops : List WOp) :
    ∀ w : ScopedWorld, CbFree w cb →
    (∀ op ∈ ops, opMentionsCb op cb = false) →
    CbFree (runW w ops).1 cb ∧
      ∀ args, Event.invoke cb args ∉ (runW w ops).2 := by
  induction ops with
  | nil =>
      intro w hw _
      exact ⟨hw, fun args => List.not_mem_nil _⟩
  | cons op rest ih =>
      intro w hw hops
      obtain ⟨hw1, hev1⟩ := stepW_cbfree cb op w hw (hops op (List.mem_cons_self _ _))
      obtain ⟨hw2, hev2⟩ := ih (stepW w op).1 hw1
        (fun o ho => hops o (List.mem_cons_of_mem _ ho))
      rw [runW_cons]
      refine ⟨hw2, fun args hmem => ?_⟩
      rcases List.mem_append.mp hmem with h' | h'
      · exact hev1 args h'
      · exact hev2 args h'

theorem runW_wfree (wid : Nat) (ops : List WOp) :
    ∀ w : ScopedWorld, WFree w wid →
    (∀ op ∈ ops, opMentionsW op wid = false) →
    WFree (runW w ops).1 wid ∧
      ∀ args, Event.resolve wid args ∉ (runW w ops).2 := by
  induction ops with
  | nil =>
      intro w hw _
      exact ⟨hw, fun args => List.not_mem_nil _⟩
  | cons op rest ih =>
      intro w hw hops
      obtain ⟨hw1, hev1⟩ := stepW_wfree wid op w hw (hops op (List.mem_cons_self _ _))
      obtain ⟨hw2, hev2⟩ := ih (stepW w op).1 hw1
        (fun o ho => hops o (List.mem_cons_of_mem _ ho))
      rw [runW_cons]
      refine ⟨hw2, fun args hmem => ?_⟩
      rcases List.mem_append.mp hmem with h' | h'
      · exact hev1 args h'
      · exact hev2 args h'

theorem runW_real (ops : List WOp) :
    ∀ (w : ScopedWorld) (name : Name) (c0 : Nat),
    JsMap.lookup w.ps name = some (.real c0) →
    ∃ c1, JsMap.lookup (runW w ops).1.ps name = some (Slot.real c1) := by
  induction ops with
  | nil =>
      intro w name c0 h
      exact ⟨c0, h⟩
  | cons op rest ih =>
      intro w name c0 h
      obtain ⟨c1, h1⟩ := stepW_real op w name c0 h
      rw [runW_cons]
      exact ih (stepW w op).1 name c1 h1

/-- C10: a Placeholder is never sealed — after finalize has run, subscribe,
unsubscribe and waitNext on the same Placeholder still succeed without
raising any error (the proxy operations are total), silently re-populating
its just-cleared buffer maps; the owning registry never finalizes a replaced
Placeholder again (a slot holding a real handle still holds a real handle
after every subsequent interaction sequence), so entries buffered after
finalize live only in the detached Placeholder and are never forwarded: a
callback id absent from every component and every live slot Placeholder is
never invoked by any interaction sequence that does not itself subscribe
it, and such a resolver id is never resolved. -/
theorem C10_placeholder_never_sealed :
    (∀ (p : PubSubProxy) (t : PSComponent) (r : PubSubProxy × PSComponent)
        (k : Name) (cb wi : Nat),
      p.finalize t = .ok r →
      r.1.promises = [] ∧ r.1.subscriptions = [] ∧
      TrigMap.getD (r.1.triggerSubscribe k cb).subscriptions k = [cb] ∧
      TrigMap.getD (r.1.asyncGet k wi).promises k = [wi] ∧
      r.1.triggerUnsubscribe k cb = r.1) ∧
    (∀ (ops : List WOp) (w : ScopedWorld) (name : Name) (c0 : Nat),
      JsMap.lookup w.ps name = some (.real c0) →
      ∃ c1, JsMap.lookup (runW w ops).1.ps name = some (Slot.real c1)) ∧
    (∀ (ops : List WOp) (w : ScopedWorld) (cb : Nat),
      CbFree w cb → (∀ op ∈ ops, opMentionsCb op cb = false) →
      ∀ args, Event.invoke cb args ∉ (runW w ops).2) ∧
    (∀ (ops : List WOp) (w : ScopedWorld) (wid : Nat),
      WFree w wid → (∀ op ∈ ops, opMentionsW op wid = false) →
      ∀ args, Event.resolve wid args ∉ (runW w ops).2) := by
  refine ⟨?_, ?_, ?_, ?_⟩
  · intro p t r k cb wi h
    have hr : r.1 = ⟨[], []⟩ := by
      unfold PubSubProxy.finalize at h
      cases hs : PSComponent.subscribeAll p.subscriptions
          (PSComponent.relayAll p.promises t) with
      | ok t' =>
          rw [hs] at h
          have heq : (⟨⟨[], []⟩, t'⟩ : PubSubProxy × PSComponent) = r := by
            simpa [Except.map] using h
          rw [← heq]
      | error e =>
          rw [hs] at h
          simp [Except.map] at h
    rw [hr]
    refine ⟨rfl, rfl, ?_, ?_, ?_⟩
    · show TrigMap.getD (TrigMap.addTo [] k cb) k = [cb]
      rw [TrigMap.getD_addTo_self]
      simp [SetList.add, TrigMap.getD, JsMap.lookup_nil]
    · show TrigMap.getD (TrigMap.addTo [] k wi) k = [wi]
      rw [TrigMap.getD_addTo_self]
      simp [SetList.add, TrigMap.getD, JsMap.lookup_nil]
    · rfl
  · exact fun ops w name c0 h => runW_real ops w name c0 h
  · exact fun ops w cb hw hops => (runW_cbfree cb ops w hw hops).2
  · exact fun ops w wid hw hops => (runW_wfree wid ops w hw hops).2

theorem C10_placeholder_never_sealed_witness :
    ((PubSubProxy.finalize ⟨[("m", [7])], [("m", [5])]⟩ ⟨[], [], false⟩ =
        .ok (⟨[], []⟩, ⟨[("m", [7])], [("m", [5])], false⟩)) ∧
     ((⟨[], []⟩ : PubSubProxy).promises = [] ∧
      (⟨[], []⟩ : PubSubProxy).subscriptions = [] ∧
      TrigMap.getD ((⟨[], []⟩ : PubSubProxy).triggerSubscribe "m" 8).subscriptions "m" = [8] ∧
      TrigMap.getD ((⟨[], []⟩ : PubSubProxy).asyncGet "m" 6).promises "m" = [6] ∧
      (⟨[], []⟩ : PubSubProxy).triggerUnsubscribe "m" 8 = ⟨[], []⟩)) ∧
    (JsMap.lookup ([("child", Slot.real 1)] : List (Name × Slot)) "child" =
        some (.real 1) ∧
     ∃ c1, JsMap.lookup (runW ⟨fun _ => ⟨[], [], false⟩, 0, [("child", .real 1)]⟩
        [WOp.get "x", WOp.set "child" 5]).1.ps "child" = some (Slot.real c1)) ∧
    (CbFree ⟨fun _ => ⟨[], [], false⟩, 0, []⟩ 3 ∧
     (∀ op ∈ [WOp.fire 0 "m" [1], WOp.slotSub "y" "m" 9], opMentionsCb op 3 = false) ∧
     ∀ args, Event.invoke 3 args ∉
       (runW ⟨fun _ => ⟨[], [], false⟩, 0, []⟩
         [WOp.fire 0 "m" [1], WOp.slotSub "y" "m" 9]).2) ∧
    (WFree ⟨fun _ => ⟨[], [], false⟩, 0, []⟩ 4 ∧
     (∀ op ∈ [WOp.fire 0 "m" [1], WOp.slotWait "y" "m" 9], opMentionsW op 4 = false) ∧
     ∀ args, Event.resolve 4 args ∉
       (runW ⟨fun _ => ⟨[], [], false⟩, 0, []⟩
         [WOp.fire 0 "m" [1], WOp.slotWait "y" "m" 9]).2) := by
  have hcb : CbFree ⟨fun _ => ⟨[], [], false⟩, 0, []⟩ 3 := by
    constructor
    · intro i
      exact List.not_mem_nil _
    · intro n p hp
      simp [JsMap.lookup_nil] at hp
  have hwf : WFree ⟨fun _ => ⟨[], [], false⟩, 0, []⟩ 4 := by
    constructor
    · intro i
      exact List.not_mem_nil _
    · intro n p hp
      simp [JsMap.lookup_nil] at hp
  refine ⟨⟨by rfl, ?_⟩, ⟨by rfl, ?_⟩, ⟨hcb, by decide, ?_⟩, ⟨hwf, by decide, ?_⟩⟩
  · exact C10_placeholder_never_sealed.1 ⟨[("m", [7])], [("m", [5])]⟩
      ⟨[], [], false⟩ (⟨[], []⟩, ⟨[("m", [7])], [("m", [5])], false⟩) "m" 8 6 (by rfl)
  · exact C10_placeholder_never_sealed.2.1 [WOp.get "x", WOp.set "child" 5]
      ⟨fun _ => ⟨[], [], false⟩, 0, [("child", .real 1)]⟩ "child" 1 (by rfl)
  · exact C10_placeholder_never_sealed.2.2.1 [WOp.fire 0 "m" [1], WOp.slotSub "y" "m" 9]
      ⟨fun _ => ⟨[], [], false⟩, 0, []⟩ 3 hcb (by decide)
  · exact C10_placeholder_never_sealed.2.2.2 [WOp.fire 0 "m" [1], WOp.slotWait "y" "m" 9]
      ⟨fun _ => ⟨[], [], false⟩, 0, []⟩ 4 hwf (by decide)
